import Mathlib

/-!
Console to-do manager (`main.go`)

Shallow embedding of the task store of `main.go` and of its console loop.

* The package-level variables `tasks` and `currentID` become the record `Store`,
  threaded explicitly through every function.
* Standard output is the list of chunks written, in order (`fmt.Println s` writes
  `s` followed by a newline, `fmt.Print s` writes `s`).
* Standard input is represented by what the `fmt.Scanln` calls deliver: the scanned
  strings for `addTask`, and `Option Int` for the numeric prompts (`none` when
  `Scanln` returns a non-nil error).
* Go `int` is the 64-bit two's-complement type: values are integers between `-2 ^ 63` and
  `2 ^ 63 - 1`, and the one arithmetic step of the program, `currentID++`, wraps
  (`wrap64`). Properties of runs that depend on the counter not having wrapped carry a
  bound on the number of successful additions (`successfulAdds`).
* Where the characters typed matter (`addTaskOnInput`), standard input is a list of
  characters and `fmt.Scanln` with a string operand is `scanlnString`, which follows the
  scanner of package `fmt`: one white-space delimited word per call, then the end of the
  line is required.

Calculator (`tutorial/advanced/testing/calculator.go`)

Namespace `Calc` embeds the `Calculator` type; a method returns its result together with the
calculator after the call. The number type is a parameter of the embedding.

Error handling (`basic/10_error_handling.go`) and functions (`tutorial/basic/03_functions.go`)

Namespace `ErrorHandling` embeds `divide`, `validateUser` and `processUser`; a value of the
interface `error` is an `Option Failure`. Namespace `Functions` embeds the second `divide`
and `sum`, with the same 64-bit arithmetic of `int`.
-/

namespace Todo

/-- Record type `Task` of `main.go`. -/
structure Task where
  ID : Int
  Title : String
  Description : String
  Completed : Bool
deriving DecidableEq, Repr

/-- The two package-level variables `tasks` and `currentID`. -/
structure Store where
  tasks : List Task
  currentID : Int
deriving DecidableEq, Repr

/-- State at program start: `var tasks []Task` (nil slice) and `var currentID = 1`. -/
def initial : Store := { tasks := [], currentID := 1 }

/-- Text written by `fmt.Println s` for a single string argument. -/
def println (s : String) : String := s ++ "\n"

/-- Result of one store function: the store afterwards and the text written. -/
structure Outcome where
  store : Store
  output : List String
deriving DecidableEq, Repr

/-- Arithmetic of the Go type `int` on a 64-bit platform: an integer taken into the range
from `-2 ^ 63` to `2 ^ 63 - 1` by two's-complement wrap-around. -/
def wrap64 (z : Int) : Int := (z + 2 ^ 63) % 2 ^ 64 - 2 ^ 63

/-- Function `addTask`; `title` and `description` are the variables after the two
`fmt.Scanln` calls (whose errors the source ignores). The statement `currentID++` is an
addition on `int` and wraps at the top of the range. -/
def addTask (s : Store) (title description : String) : Outcome :=
  let prompts := ["Enter task title: ", "Enter task description: "]
  if title = "" then
    { store := s, output := prompts ++ [println "Error: Title cannot be empty!"] }
  else
    let task : Task :=
      { ID := s.currentID, Title := title, Description := description, Completed := false }
    { store := { tasks := s.tasks ++ [task], currentID := wrap64 (s.currentID + 1) },
      output := prompts ++ [println "Task added successfully!"] }

/-- Text written by the `fmt.Printf` call of `listTasks` for one task. -/
def taskEntry (task : Task) : String :=
  let status := if task.Completed then "Completed" else "Pending"
  "ID: " ++ toString task.ID ++ "\nTitle: " ++ task.Title ++ "\nDescription: "
    ++ task.Description ++ "\nStatus: " ++ status ++ "\n\n"

/-- Function `listTasks`. -/
def listTasks (s : Store) : Outcome :=
  if s.tasks.length = 0 then
    { store := s, output := [println "No tasks found!"] }
  else
    { store := s,
      output := [println "\nCurrent Tasks:", println "-------------"] ++ s.tasks.map taskEntry }

/-- The scan shared by `completeTask` and `deleteTask`:
`for i := range tasks` with the test `tasks[i].ID == id`; the result is the index at which
the loop body fires (and returns), `none` when the loop runs to its end. The second
argument is the index of the head of the list still to be visited. -/
def scanFrom (id : Int) : List Task → Nat → Option Nat
  | [], _ => none
  | t :: rest, i => if t.ID = id then some i else scanFrom id rest (i + 1)

/-- Assignment `tasks[i].Completed = true`. -/
def markCompleted (t : Task) : Task := { t with Completed := true }

/-- Function `completeTask`; `scan` is the outcome of `fmt.Scanln(&id)`. -/
def completeTask (s : Store) (scan : Option Int) : Outcome :=
  let prompt := "Enter task ID to complete: "
  match scan with
  | none => { store := s, output := [prompt, println "Error: Please enter a valid number!"] }
  | some id =>
    match scanFrom id s.tasks 0 with
    | some i =>
      { store := { s with tasks := s.tasks.modify markCompleted i },
        output := [prompt, println "Task marked as completed!"] }
    | none => { store := s, output := [prompt, println "Task not found!"] }

/-- Function `deleteTask`; `scan` is the outcome of `fmt.Scanln(&id)`.
The slice expression `append(tasks[:i], tasks[i+1:]...)` is `take i ++ drop (i + 1)`. -/
def deleteTask (s : Store) (scan : Option Int) : Outcome :=
  let prompt := "Enter task ID to delete: "
  match scan with
  | none => { store := s, output := [prompt, println "Error: Please enter a valid number!"] }
  | some id =>
    match scanFrom id s.tasks 0 with
    | some i =>
      { store := { s with tasks := s.tasks.take i ++ s.tasks.drop (i + 1) },
        output := [prompt, println "Task deleted successfully!"] }
    | none => { store := s, output := [prompt, println "Task not found!"] }

/-- What the environment delivers during one pass through the body of the `for` loop of
`main`: the error of `clearScreen()` (if any), the outcome of `fmt.Scanln(&choice)`, and the
values the prompts of the dispatched function would scan. A field is only read by the
branch that performs the corresponding call. -/
structure Scanned where
  clearErr : Option String
  choice : Option Int
  title : String
  description : String
  id : Option Int
deriving DecidableEq, Repr

/-- Result of one pass through the loop body of `main`. -/
structure Step where
  store : Store
  output : List String
  exited : Bool
deriving DecidableEq, Repr

/-- The menu lines and the choice prompt written by `main`. -/
def menu : List String :=
  [println "Task Management System", println "1. Add Task", println "2. List Tasks",
   println "3. Complete Task", println "4. Delete Task", println "5. Exit",
   "\nEnter your choice (1-5): "]

/-- One pass through the body of the `for` loop of `main`. `exited` is true exactly when
the pass ends in the `return` of `case 5`. -/
def iteration (s : Store) (e : Scanned) : Step :=
  let warning :=
    match e.clearErr with
    | some err => [println ("Warning: Could not clear screen: " ++ err)]
    | none => []
  let shown := warning ++ menu
  let pause := ["\nPress Enter to continue..."]
  match e.choice with
  | none =>
    { store := s, output := shown ++ [println "Error: Please enter a valid number!"],
      exited := false }
  | some choice =>
    if choice = 1 then
      let r := addTask s e.title e.description
      { store := r.store, output := shown ++ r.output ++ pause, exited := false }
    else if choice = 2 then
      let r := listTasks s
      { store := r.store, output := shown ++ r.output ++ pause, exited := false }
    else if choice = 3 then
      let r := completeTask s e.id
      { store := r.store, output := shown ++ r.output ++ pause, exited := false }
    else if choice = 4 then
      let r := deleteTask s e.id
      { store := r.store, output := shown ++ r.output ++ pause, exited := false }
    else if choice = 5 then
      { store := s, output := shown ++ [println "Goodbye!"], exited := true }
    else
      { store := s, output := shown ++ [println "Invalid choice! Please try again."] ++ pause,
        exited := false }

/-- The `for` loop of `main` over a finite run of passes: it stops at the first pass that
exits; when the list is used up the program is still waiting for input. -/
def mainLoop (s : Store) : List Scanned → Step
  | [] => { store := s, output := [], exited := false }
  | e :: rest =>
    let r := iteration s e
    if r.exited then r
    else
      let r2 := mainLoop r.store rest
      { store := r2.store, output := r.output ++ r2.output, exited := r2.exited }

/-- IDs of the stored tasks, in store order. -/
def ids (s : Store) : List Int := s.tasks.map Task.ID

/-- A pass that dispatches to `addTask` with a non-empty title: a successful addition. -/
def addsTask (e : Scanned) : Bool := decide (e.choice = some 1) && decide (e.title ≠ "")

/-- Number of successful additions among the passes `ins`. -/
def successfulAdds (ins : List Scanned) : Nat := ins.countP addsTask

/-- Sample store used to exercise the store functions: two tasks, one of them completed. -/
def sampleStore : Store :=
  { tasks := [{ ID := 1, Title := "tea", Description := "green", Completed := true },
              { ID := 3, Title := "milk", Description := "2%", Completed := false }],
    currentID := 4 }

/-- Sample store in which two tasks carry the same ID. -/
def twinStore : Store :=
  { tasks := [{ ID := 2, Title := "tea", Description := "", Completed := false },
              { ID := 2, Title := "milk", Description := "", Completed := false }],
    currentID := 3 }

/-- Sample pass: menu choice 1 with the given scanned title and description. -/
def addPass (title description : String) : Scanned :=
  { clearErr := none, choice := some 1, title := title, description := description, id := none }

/-- Sample pass: menu choice 2. -/
def listPass : Scanned :=
  { clearErr := none, choice := some 2, title := "", description := "", id := none }

/-- Sample pass: menu choice 3 with the given scanned id. -/
def completePass (id : Int) : Scanned :=
  { clearErr := none, choice := some 3, title := "", description := "", id := some id }

/-- Sample pass: menu choice 4 with the given scanned id. -/
def deletePass (id : Int) : Scanned :=
  { clearErr := none, choice := some 4, title := "", description := "", id := some id }

/-- Run invariant that holds with the wrapping counter: after `n` successful additions the
counter is the wrap of `n + 1`, and the stored IDs are the wraps of strictly increasing
numbers between 1 and `n` (the ranks of the additions that created the tasks). -/
def Numbered (n : Nat) (s : Store) : Prop :=
  s.currentID = wrap64 ((n : Int) + 1) ∧
    ∃ ks : List Nat, ks.Pairwise (fun a b => a < b) ∧ (∀ k ∈ ks, 1 ≤ k ∧ k ≤ n)
      ∧ ids s = List.map (fun (k : Nat) => wrap64 (k : Int)) ks

/-- Store whose counter holds the largest value of `int`, `2 ^ 63 - 1`. -/
def topStore : Store := { tasks := [], currentID := 2 ^ 63 - 1 }

/-- Sample run `churn c n`: `n` times an addition followed by the deletion of the task just
added, for a counter that starts at the wrap of `c`; the store never grows by more than one
task. -/
def churn : Nat → Nat → List Scanned
  | _, 0 => []
  | c, n + 1 => addPass "a" "" :: deletePass (wrap64 (c : Int)) :: churn (c + 1) n

/-- Tasks appended by the successful additions of a run, in the order of their creation:
a pass with choice 1 and a non-empty title creates the task with the current counter as ID
and `Completed = false`. -/
def createdBy (s : Store) : List Scanned → List Task
  | [] => []
  | e :: rest =>
    if (iteration s e).exited then []
    else
      (if addsTask e then
        [{ ID := s.currentID, Title := e.title, Description := e.description,
           Completed := false }]
       else [])
        ++ createdBy (iteration s e).store rest

/-- Tasks taken out by the successful deletions of a run, in the order of their removal:
a pass with choice 4 and a scanned id takes out the first stored task with that ID, if
there is one. -/
def removedBy (s : Store) : List Scanned → List Task
  | [] => []
  | e :: rest =>
    if (iteration s e).exited then []
    else
      (if e.choice = some 4 then
        match e.id with
        | some id => (s.tasks.find? (fun t => decide (t.ID = id))).toList
        | none => []
       else [])
        ++ removedBy (iteration s e).store rest

/-- Function `isSpace` of package `fmt` (`scan.go`): the runes that separate words. -/
def isSpace (c : Char) : Bool :=
  let n := c.toNat
  (0x0009 ≤ n && n ≤ 0x000d) || n == 0x0020 || n == 0x0085 || n == 0x00a0 || n == 0x1680
    || (0x2000 ≤ n && n ≤ 0x200a) || n == 0x2028 || n == 0x2029 || n == 0x202f
    || n == 0x205f || n == 0x3000

/-- Loop `SkipSpace` of package `fmt` as run by `Scanln` (newlines are not space there):
leading blanks are read; a newline met first is read too and is the error
"unexpected newline" (first component `true`). The second component is the input left. -/
def skipSpace : List Char → Bool × List Char
  | [] => (false, [])
  | c :: cs =>
    if c = '\n' then (true, cs)
    else if isSpace c then skipSpace cs
    else (false, c :: cs)

/-- Final check of `Scanln` after its operands: blanks are read up to the newline or the end
of input; another rune met first is read as well and is the error "expected newline"
(first component `true`). Standard input offers no way to put a rune back once the call
returns, so that rune is gone for the next call. -/
def expectNewline : List Char → Bool × List Char
  | [] => (false, [])
  | c :: cs =>
    if c = '\n' then (false, cs)
    else if isSpace c then expectNewline cs
    else (true, cs)

/-- Outcome of `fmt.Scanln(&v)` for a string operand: the word stored in `v` (if the scan
got that far), whether the call returned an error, and the input left unread. -/
structure Scan where
  value : Option String
  failed : Bool
  rest : List Char
deriving DecidableEq, Repr

/-- Call `fmt.Scanln(&v)` with `v` a string, on the input `input` (the empty list is the end
of input): skip blanks, read one word (the runes up to the next white space), store it,
then require the end of the line. -/
def scanlnString (input : List Char) : Scan :=
  match skipSpace input with
  | (true, rest) => { value := none, failed := true, rest := rest }
  | (false, []) => { value := none, failed := true, rest := [] }
  | (false, c :: cs) =>
    let word := (c :: cs).takeWhile (fun r => !isSpace r)
    let after := expectNewline ((c :: cs).dropWhile (fun r => !isSpace r))
    { value := some (String.mk word), failed := after.1, rest := after.2 }

/-- Function `addTask` on raw standard input: the two `fmt.Scanln` calls of the source fill
`title` and `description` (both start as the empty string and the errors are ignored), then
the body of `addTask` runs. The second component is the input left unread. -/
def addTaskOnInput (s : Store) (input : List Char) : Outcome × List Char :=
  let first := scanlnString input
  let second := scanlnString first.rest
  (addTask s (first.value.getD "") (second.value.getD ""), second.rest)

/-- List form of the effect of `deleteTask` on `tasks`: the first task with the given ID is
dropped (used to reason about sequences of calls). -/
def dropFirst (id : Int) : List Task → List Task
  | [] => []
  | t :: rest => if t.ID = id then rest else t :: dropFirst id rest

/-- List form of the effect of `completeTask` on `tasks`: the first task with the given ID
gets `Completed = true` (used to reason about sequences of calls). -/
def markFirst (id : Int) : List Task → List Task
  | [] => []
  | t :: rest => if t.ID = id then markCompleted t :: rest else t :: markFirst id rest

end Todo

namespace Calc

/-- Struct `Calculator` of package `calculator`. The carrier `F` stands for the Go type
`float64`: its sum, difference and zero value are taken as given (`Add F`, `Sub F`,
`Zero F`), so nothing below depends on how floating-point arithmetic rounds. -/
structure Calculator (F : Type) where
  lastResult : F
deriving DecidableEq, Repr

/-- Value of `&Calculator{}`: every field has its zero value. -/
def Calculator.fresh {F : Type} [Zero F] : Calculator F := { lastResult := 0 }

/-- Method `Add`: the number returned and the calculator after the call. -/
def Calculator.Add {F : Type} [Add F] (c : Calculator F) (a b : F) : F × Calculator F :=
  let c1 : Calculator F := { c with lastResult := a + b }
  (c1.lastResult, c1)

/-- Method `Subtract`: the number returned and the calculator after the call. -/
def Calculator.Subtract {F : Type} [Sub F] (c : Calculator F) (a b : F) : F × Calculator F :=
  let c1 : Calculator F := { c with lastResult := a - b }
  (c1.lastResult, c1)

/-- Method `GetLastResult`: the number returned and the calculator after the call. -/
def Calculator.GetLastResult {F : Type} (c : Calculator F) : F × Calculator F :=
  (c.lastResult, c)

/-- One call of `Add` or of `Subtract` with its arguments. -/
inductive Call (F : Type) where
  | add (a b : F)
  | subtract (a b : F)
deriving DecidableEq, Repr

/-- Perform one call on a calculator. -/
def perform {F : Type} [Add F] [Sub F] (c : Calculator F) : Call F → F × Calculator F
  | Call.add a b => c.Add a b
  | Call.subtract a b => c.Subtract a b

/-- Calculator after a sequence of calls, performed in order. -/
def afterCalls {F : Type} [Add F] [Sub F] (c : Calculator F) : List (Call F) → Calculator F
  | [] => c
  | k :: rest => afterCalls (perform c k).2 rest

/-- Numbers returned by a sequence of calls performed in order on one calculator. -/
def returned {F : Type} [Add F] [Sub F] (c : Calculator F) : List (Call F) → List F
  | [] => []
  | k :: rest => (perform c k).1 :: returned (perform c k).2 rest

end Calc

namespace ErrorHandling

/-- Struct `ValidationError` of `basic/10_error_handling.go`. -/
structure ValidationError where
  Field : String
  Issue : String
deriving DecidableEq, Repr

/-- Method `Error` of `*ValidationError`:
`fmt.Sprintf("Validation error in %s: %s", e.Field, e.Issue)`. -/
def ValidationError.Error (e : ValidationError) : String :=
  "Validation error in " ++ e.Field ++ ": " ++ e.Issue

/-- The non-nil values of the interface `error` that the program builds: the result of
`errors.New(msg)`, a `*ValidationError`, and the result of `fmt.Errorf` with the verb `%w`,
which keeps its formatted message and the error it wraps. A value of type `error` is an
`Option Failure`, with `none` for `nil`. -/
inductive Failure where
  | text (msg : String)
  | validation (e : ValidationError)
  | wrapped (msg : String) (cause : Failure)
deriving DecidableEq, Repr

/-- Method `Error` of an error value. -/
def Failure.Error : Failure → String
  | Failure.text msg => msg
  | Failure.validation e => e.Error
  | Failure.wrapped msg _ => msg

/-- Function `errors.Unwrap`: the wrapped error of a value built with `%w`, `nil` for the
other values, which have no `Unwrap` method. -/
def Failure.Unwrap : Failure → Option Failure
  | Failure.wrapped _ cause => some cause
  | _ => none

/-- Call `fmt.Errorf(lead + "%w", err)`: the verb `%w` formats `err` by its `Error` method
and the result wraps `err`. -/
def errorfWrap (lead : String) (err : Failure) : Failure :=
  Failure.wrapped (lead ++ err.Error) err

/-- Function `divide` of `basic/10_error_handling.go`. The carrier `F` stands for `float64`,
with its comparison `==`, its zero and its quotient taken as given. -/
def divide {F : Type} [BEq F] [Zero F] [Div F] (a b : F) : F × Option Failure :=
  if b == 0 then (0, some (Failure.text "division by zero"))
  else (a / b, none)

/-- Function `validateUser`. -/
def validateUser (name : String) (age : Int) : Option Failure :=
  if name = "" then
    some (Failure.validation { Field := "name", Issue := "name cannot be empty" })
  else if age < 0 then
    some (Failure.validation { Field := "age", Issue := "age cannot be negative" })
  else none

/-- Function `processUser`. -/
def processUser (name : String) (age : Int) : Option Failure :=
  match validateUser name age with
  | some err => some (errorfWrap "failed to process user: " err)
  | none => none

end ErrorHandling

namespace Functions

/-- Function `divide` of `tutorial/basic/03_functions.go`. The carrier `F` stands for
`float64`; the error, built by `fmt.Errorf` from a format without verbs, is given by its
message, `none` standing for `nil`. -/
def divide {F : Type} [BEq F] [Zero F] [Div F] (a b : F) : F × Option String :=
  if b == 0 then (0, some "division by zero")
  else (a / b, none)

/-- Arithmetic of the Go type `int` on a 64-bit platform: an integer taken into the range
from `-2 ^ 63` to `2 ^ 63 - 1` by two's-complement wrap-around. -/
def wrapInt (z : Int) : Int := (z + 2 ^ 63) % 2 ^ 64 - 2 ^ 63

/-- Function `sum`: `total := 0`, then `total += num` for every argument in order. -/
def sum (numbers : List Int) : Int :=
  numbers.foldl (fun total num => wrapInt (total + num)) 0

end Functions

namespace Todo

/-! ## Auxiliary lemmas -/

theorem scanFrom_eq_none {id : Int} {l : List Task} {k : Nat} :
    scanFrom id l k = none ↔ ∀ t ∈ l, t.ID ≠ id := by
  induction l generalizing k with
  | nil => simp [scanFrom]
  | cons t rest ih =>
    by_cases h : t.ID = id
    · simp [scanFrom, h]
    · simp [scanFrom, h, ih]

theorem scanFrom_eq_some {id : Int} {l : List Task} {k i : Nat}
    (h : scanFrom id l k = some i) :
    ∃ pre t post, l = pre ++ t :: post ∧ t.ID = id ∧ (∀ u ∈ pre, u.ID ≠ id)
      ∧ i = k + pre.length := by
  induction l generalizing k with
  | nil => simp [scanFrom] at h
  | cons t rest ih =>
    by_cases ht : t.ID = id
    · simp [scanFrom, ht] at h
      exact ⟨[], t, rest, rfl, ht, by simp, by simp [h]⟩
    · simp [scanFrom, ht] at h
      obtain ⟨pre, u, post, hl, hu, hpre, hi⟩ := ih h
      refine ⟨t :: pre, u, post, by simp [hl], hu, ?_, by simp [hi]; omega⟩
      intro v hv
      rcases List.mem_cons.1 hv with rfl | hv
      · exact ht
      · exact hpre v hv

theorem scanFrom_split {id : Int} (pre : List Task) (t : Task) (post : List Task) (k : Nat)
    (ht : t.ID = id) (hpre : ∀ u ∈ pre, u.ID ≠ id) :
    scanFrom id (pre ++ t :: post) k = some (k + pre.length) := by
  induction pre generalizing k with
  | nil => simp [scanFrom, ht]
  | cons u pre ih =>
    have hu : u.ID ≠ id := hpre u (by simp)
    have := ih (k + 1) (fun v hv => hpre v (by simp [hv]))
    simp [scanFrom, hu, this]; omega

theorem modify_split (f : Task → Task) (pre : List Task) (t : Task) (post : List Task) :
    (pre ++ t :: post).modify f pre.length = pre ++ f t :: post := by
  induction pre with
  | nil => simp [List.modify]
  | cons u pre ih => simpa [List.modify] using ih

theorem take_drop_split (pre : List Task) (t : Task) (post : List Task) :
    (pre ++ t :: post).take pre.length ++ (pre ++ t :: post).drop (pre.length + 1)
      = pre ++ post := by
  induction pre with
  | nil => simp
  | cons u pre ih => simp

theorem completeTask_split (s : Store) (id : Int) (pre : List Task) (t : Task)
    (post : List Task) (hl : s.tasks = pre ++ t :: post) (ht : t.ID = id)
    (hpre : ∀ u ∈ pre, u.ID ≠ id) :
    (completeTask s (some id)).store
      = { tasks := pre ++ markCompleted t :: post, currentID := s.currentID } := by
  have hscan : scanFrom id s.tasks 0 = some pre.length := by
    rw [hl]; simpa using scanFrom_split pre t post 0 ht hpre
  simp only [completeTask, hscan]
  rw [hl, modify_split]

theorem exists_first_match {id : Int} {l : List Task} (h : ∃ t ∈ l, t.ID = id) :
    ∃ pre t post, l = pre ++ t :: post ∧ t.ID = id ∧ (∀ u ∈ pre, u.ID ≠ id) := by
  cases hscan : scanFrom id l 0 with
  | none =>
    obtain ⟨t, ht, hid⟩ := h
    exact absurd hid (scanFrom_eq_none.1 hscan t ht)
  | some i =>
    obtain ⟨pre, t, post, hl, ht, hpre, _⟩ := scanFrom_eq_some hscan
    exact ⟨pre, t, post, hl, ht, hpre⟩

theorem find?_split {id : Int} (pre : List Task) (t : Task) (post : List Task)
    (ht : t.ID = id) (hpre : ∀ u ∈ pre, u.ID ≠ id) :
    (pre ++ t :: post).find? (fun u => decide (u.ID = id)) = some t := by
  induction pre with
  | nil => simp [ht]
  | cons u pre ih =>
    have hu : u.ID ≠ id := hpre u (by simp)
    have := ih (fun v hv => hpre v (by simp [hv]))
    simpa [List.find?, hu] using this

theorem getElem?_split (pre : List Task) (t : Task) (post : List Task) :
    (pre ++ t :: post)[pre.length]? = some t := by
  rw [List.getElem?_append_right (Nat.le_refl _)]
  simp

theorem addTask_store (s : Store) (title description : String) :
    (addTask s title description).store
      = if title = "" then s
        else { tasks := s.tasks ++ [{ ID := s.currentID, Title := title,
                                      Description := description, Completed := false }],
               currentID := wrap64 (s.currentID + 1) } := by
  by_cases h : title = "" <;> simp [addTask, h]

theorem listTasks_store (s : Store) : (listTasks s).store = s := by
  unfold listTasks
  split_ifs <;> rfl

theorem completeTask_not_found (s : Store) (id : Int) (h : ¬ ∃ t ∈ s.tasks, t.ID = id) :
    completeTask s (some id)
      = { store := s, output := ["Enter task ID to complete: ", "Task not found!\n"] } := by
  have hnone : scanFrom id s.tasks 0 = none :=
    scanFrom_eq_none.2 (fun t ht hid => h ⟨t, ht, hid⟩)
  simp [completeTask, hnone, println]

theorem deleteTask_not_found (s : Store) (id : Int) (h : ¬ ∃ t ∈ s.tasks, t.ID = id) :
    deleteTask s (some id)
      = { store := s, output := ["Enter task ID to delete: ", "Task not found!\n"] } := by
  have hnone : scanFrom id s.tasks 0 = none :=
    scanFrom_eq_none.2 (fun t ht hid => h ⟨t, ht, hid⟩)
  simp [deleteTask, hnone, println]

theorem deleteTask_split (s : Store) (id : Int) (pre : List Task) (t : Task)
    (post : List Task) (hl : s.tasks = pre ++ t :: post) (ht : t.ID = id)
    (hpre : ∀ u ∈ pre, u.ID ≠ id) :
    (deleteTask s (some id)).store = { tasks := pre ++ post, currentID := s.currentID } := by
  have hscan : scanFrom id s.tasks 0 = some pre.length := by
    rw [hl]; simpa using scanFrom_split pre t post 0 ht hpre
  simp only [deleteTask, hscan]
  rw [hl, take_drop_split]

theorem completeTask_ids (s : Store) (o : Option Int) :
    ids (completeTask s o).store = ids s
      ∧ (completeTask s o).store.currentID = s.currentID := by
  cases o with
  | none => simp [completeTask]
  | some id =>
    by_cases h : ∃ t ∈ s.tasks, t.ID = id
    · obtain ⟨pre, t, post, hl, ht, hpre⟩ := exists_first_match h
      rw [completeTask_split s id pre t post hl ht hpre]
      simp [ids, hl, markCompleted]
    · rw [completeTask_not_found s id h]
      exact ⟨rfl, rfl⟩

theorem deleteTask_sublist (s : Store) (o : Option Int) :
    (deleteTask s o).store.tasks.Sublist s.tasks
      ∧ (deleteTask s o).store.currentID = s.currentID := by
  cases o with
  | none => simp [deleteTask]
  | some id =>
    by_cases h : ∃ t ∈ s.tasks, t.ID = id
    · obtain ⟨pre, t, post, hl, ht, hpre⟩ := exists_first_match h
      rw [deleteTask_split s id pre t post hl ht hpre, hl]
      exact ⟨List.Sublist.append_left (List.sublist_cons_self t post) pre, rfl⟩
    · rw [deleteTask_not_found s id h]
      exact ⟨List.Sublist.refl _, rfl⟩

theorem iteration_preserves (P : Store → Prop) (s : Store) (e : Scanned) (hs : P s)
    (hadd : P (addTask s e.title e.description).store)
    (hcomplete : P (completeTask s e.id).store)
    (hdelete : P (deleteTask s e.id).store) : P (iteration s e).store := by
  unfold iteration
  cases e.choice with
  | none => exact hs
  | some choice =>
    simp only []
    split_ifs
    · exact hadd
    · rw [listTasks_store]; exact hs
    · exact hcomplete
    · exact hdelete
    · exact hs
    · exact hs

theorem mainLoop_preserves (P : Store → Prop)
    (hstep : ∀ s e, P s → P (iteration s e).store) (s : Store) (ins : List Scanned)
    (hs : P s) : P (mainLoop s ins).store := by
  induction ins generalizing s with
  | nil => exact hs
  | cons e rest ih =>
    unfold mainLoop
    simp only []
    split_ifs
    · exact hstep s e hs
    · exact ih _ (hstep s e hs)

theorem mainLoop_append (s : Store) (pre post : List Scanned)
    (hrun : (mainLoop s pre).exited = false) :
    (mainLoop s (pre ++ post)).store = (mainLoop (mainLoop s pre).store post).store
      ∧ (mainLoop s (pre ++ post)).exited = (mainLoop (mainLoop s pre).store post).exited := by
  induction pre generalizing s with
  | nil => simp [mainLoop]
  | cons e rest ih =>
    by_cases he : (iteration s e).exited = true
    · simp [mainLoop, he] at hrun
    · simp only [mainLoop, he, List.cons_append] at hrun ⊢
      simpa using ih _ hrun

theorem mainLoop_singleton (s : Store) (e : Scanned) :
    (mainLoop s [e]).store = (iteration s e).store := by
  by_cases he : (iteration s e).exited = true <;> simp [mainLoop, he]

theorem deleteTask_ids_sublist (s : Store) (o : Option Int) :
    (ids (deleteTask s o).store).Sublist (ids s) :=
  (deleteTask_sublist s o).1.map Task.ID

theorem iteration_add (s : Store) (e : Scanned) (h : e.choice = some 1) :
    (iteration s e).store = (addTask s e.title e.description).store := by
  simp [iteration, h]

theorem iteration_delete (s : Store) (e : Scanned) (h : e.choice = some 4) :
    (iteration s e).store = (deleteTask s e.id).store := by
  simp [iteration, h]

theorem completeTask_cases (s : Store) (o : Option Int) :
    (completeTask s o).store = s ∨
      ∃ pre t post, s.tasks = pre ++ t :: post
        ∧ (completeTask s o).store
            = { tasks := pre ++ markCompleted t :: post, currentID := s.currentID } := by
  cases o with
  | none => left; simp [completeTask]
  | some id =>
    by_cases h : ∃ t ∈ s.tasks, t.ID = id
    · obtain ⟨pre, t, post, hl, ht, hpre⟩ := exists_first_match h
      exact Or.inr ⟨pre, t, post, hl, completeTask_split s id pre t post hl ht hpre⟩
    · left
      rw [completeTask_not_found s id h]

theorem completeTask_origin (s : Store) (o : Option Int) :
    ∀ u ∈ (completeTask s o).store.tasks, ∃ t ∈ s.tasks, u.ID = t.ID ∧ u.Title = t.Title
      ∧ u.Description = t.Description ∧ (t.Completed = true → u.Completed = true) := by
  intro u hu
  rcases completeTask_cases s o with h | ⟨pre, t, post, hl, h⟩
  · rw [h] at hu
    exact ⟨u, hu, rfl, rfl, rfl, id⟩
  · rw [h] at hu
    simp only [List.mem_append, List.mem_cons] at hu
    rcases hu with hu | rfl | hu
    · exact ⟨u, by rw [hl]; simp [hu], rfl, rfl, rfl, id⟩
    · exact ⟨t, by rw [hl]; simp, rfl, rfl, rfl, fun _ => rfl⟩
    · exact ⟨u, by rw [hl]; simp [hu], rfl, rfl, rfl, id⟩

theorem getElem?_split_cases (pre : List Task) (t : Task) (post : List Task) (f : Task → Task)
    (i : Nat) (u : Task) (h : (pre ++ t :: post)[i]? = some u) :
    (pre ++ f t :: post)[i]? = some u ∨ (u = t ∧ (pre ++ f t :: post)[i]? = some (f t)) := by
  rcases Nat.lt_trichotomy i pre.length with hlt | heq | hgt
  · left
    rw [List.getElem?_append_left hlt] at h ⊢
    exact h
  · right
    subst heq
    rw [getElem?_split] at h ⊢
    exact ⟨(Option.some.inj h).symm, rfl⟩
  · left
    have hle : pre.length ≤ i := by omega
    rw [List.getElem?_append_right hle] at h ⊢
    obtain ⟨k, hk⟩ : ∃ k, i - pre.length = k + 1 := ⟨i - pre.length - 1, by omega⟩
    rw [hk] at h ⊢
    simpa using h

theorem markCompleted_of_completed (t : Task) (h : t.Completed = true) : markCompleted t = t := by
  cases t
  simp only [markCompleted] at h ⊢
  simp [h]

theorem completeTask_keeps_completed (s : Store) (o : Option Int) (i : Nat) (t : Task)
    (hi : s.tasks[i]? = some t) (ht : t.Completed = true) :
    (completeTask s o).store.tasks[i]? = some t := by
  rcases completeTask_cases s o with h | ⟨pre, u, post, hl, h⟩
  · rw [h]; exact hi
  · rw [h]
    rw [hl] at hi
    rcases getElem?_split_cases pre u post markCompleted i t hi with h1 | ⟨h1, h2⟩
    · exact h1
    · subst h1
      rw [h2, markCompleted_of_completed t ht]

theorem addTask_keeps_index (s : Store) (title description : String) (i : Nat) (t : Task)
    (hi : s.tasks[i]? = some t) : (addTask s title description).store.tasks[i]? = some t := by
  rw [addTask_store]
  split_ifs
  · exact hi
  · have hlt : i < s.tasks.length := (List.getElem?_eq_some.1 hi).1
    simp only []
    rw [List.getElem?_append_left hlt]
    exact hi

theorem iteration_keeps_completed (s : Store) (e : Scanned) (he : e.choice ≠ some 4)
    (i : Nat) (t : Task) (hi : s.tasks[i]? = some t) (ht : t.Completed = true) :
    (iteration s e).store.tasks[i]? = some t := by
  unfold iteration
  cases hch : e.choice with
  | none => exact hi
  | some choice =>
    have h4 : choice ≠ 4 := by
      intro h
      exact he (by rw [hch, h])
    simp only []
    split_ifs
    · exact addTask_keeps_index s _ _ i t hi
    · rw [listTasks_store]; exact hi
    · exact completeTask_keeps_completed s _ i t hi ht
    · exact hi
    · exact hi

theorem titles_iteration (s : Store) (e : Scanned) (hs : ∀ t ∈ s.tasks, t.Title ≠ "") :
    ∀ t ∈ (iteration s e).store.tasks, t.Title ≠ "" := by
  refine iteration_preserves (fun x => ∀ t ∈ x.tasks, t.Title ≠ "") s e hs ?_ ?_ ?_
  · rw [addTask_store]
    split_ifs with h
    · exact hs
    · intro t ht
      simp only [List.mem_append, List.mem_singleton] at ht
      rcases ht with ht | rfl
      · exact hs t ht
      · exact h
  · intro u hu
    obtain ⟨t, ht, _, h2, _, _⟩ := completeTask_origin s e.id u hu
    rw [h2]
    exact hs t ht
  · intro u hu
    exact hs u ((deleteTask_sublist s e.id).1.subset hu)

theorem mainLoop_exited_iff (s : Store) (ins : List Scanned) :
    (mainLoop s ins).exited = true ↔ ∃ e ∈ ins, e.choice = some 5 := by
  have hstep : ∀ (x : Store) (e : Scanned),
      (iteration x e).exited = true ↔ e.choice = some 5 := by
    intro x e
    unfold iteration
    cases hch : e.choice with
    | none => simp
    | some choice =>
      simp only []
      split_ifs with h1 h2 h3 h4 h5 <;> simp <;> omega
  induction ins generalizing s with
  | nil => simp [mainLoop]
  | cons e rest ih =>
    by_cases he : (iteration s e).exited = true
    · simp only [mainLoop, he, if_true, List.mem_cons, exists_eq_or_imp]
      simp [(hstep s e).1 he]
    · have hne : ¬ e.choice = some 5 := fun h => he ((hstep s e).2 h)
      simp only [mainLoop, he, List.mem_cons, exists_eq_or_imp, hne, false_or]
      simpa using ih (iteration s e).store

theorem isSpace_newline : isSpace '\n' = true := by decide

theorem skipSpace_word (w rest : List Char) (c : Char) (hc : isSpace c = false) :
    skipSpace (c :: w ++ rest) = (false, c :: w ++ rest) := by
  have hne : c ≠ '\n' := by
    intro h
    rw [h, isSpace_newline] at hc
    exact Bool.noConfusion hc
  simp [skipSpace, hne, hc]

theorem takeWhile_word (w rest : List Char) (hw : ∀ c ∈ w, isSpace c = false) :
    (w ++ '\n' :: rest).takeWhile (fun r => !isSpace r) = w := by
  induction w with
  | nil => simp [List.takeWhile, isSpace_newline]
  | cons c w ih =>
    have hc := hw c (by simp)
    simp [List.takeWhile, hc, ih (fun d hd => hw d (by simp [hd]))]

theorem dropWhile_word (w rest : List Char) (hw : ∀ c ∈ w, isSpace c = false) :
    (w ++ '\n' :: rest).dropWhile (fun r => !isSpace r) = '\n' :: rest := by
  induction w with
  | nil => simp [List.dropWhile, isSpace_newline]
  | cons c w ih =>
    have hc := hw c (by simp)
    simp [List.dropWhile, hc, ih (fun d hd => hw d (by simp [hd]))]

theorem scanlnString_line (w rest : List Char) (hw : ∀ c ∈ w, isSpace c = false) :
    ((scanlnString (w ++ '\n' :: rest)).value.getD "" = String.mk w)
      ∧ (scanlnString (w ++ '\n' :: rest)).rest = rest := by
  cases w with
  | nil => simp [scanlnString, skipSpace]
  | cons c w =>
    have hc := hw c (by simp)
    have hskip := skipSpace_word w ('\n' :: rest) c hc
    have htake := takeWhile_word (c :: w) rest hw
    have hdrop := dropWhile_word (c :: w) rest hw
    simp only [List.cons_append] at hskip htake hdrop ⊢
    simp only [scanlnString, hskip, htake, hdrop]
    simp [expectNewline]

theorem addTaskOnInput_words (s : Store) (w1 w2 rest : List Char)
    (h1 : ∀ c ∈ w1, isSpace c = false) (h2 : ∀ c ∈ w2, isSpace c = false) :
    addTaskOnInput s (w1 ++ '\n' :: (w2 ++ '\n' :: rest))
      = (addTask s (String.mk w1) (String.mk w2), rest) := by
  obtain ⟨ha, hb⟩ := scanlnString_line w1 (w2 ++ '\n' :: rest) h1
  obtain ⟨hc, hd⟩ := scanlnString_line w2 rest h2
  simp only [addTaskOnInput, ha, hb, hc, hd]

theorem dropFirst_split {id : Int} (pre : List Task) (t : Task) (post : List Task)
    (ht : t.ID = id) (hpre : ∀ u ∈ pre, u.ID ≠ id) :
    dropFirst id (pre ++ t :: post) = pre ++ post := by
  induction pre with
  | nil => simp [dropFirst, ht]
  | cons u pre ih =>
    have hu : u.ID ≠ id := hpre u (by simp)
    simp [dropFirst, hu, ih (fun v hv => hpre v (by simp [hv]))]

theorem markFirst_split {id : Int} (pre : List Task) (t : Task) (post : List Task)
    (ht : t.ID = id) (hpre : ∀ u ∈ pre, u.ID ≠ id) :
    markFirst id (pre ++ t :: post) = pre ++ markCompleted t :: post := by
  induction pre with
  | nil => simp [markFirst, ht]
  | cons u pre ih =>
    have hu : u.ID ≠ id := hpre u (by simp)
    simp [markFirst, hu, ih (fun v hv => hpre v (by simp [hv]))]

theorem dropFirst_absent {id : Int} (l : List Task) (h : ∀ u ∈ l, u.ID ≠ id) :
    dropFirst id l = l := by
  induction l with
  | nil => rfl
  | cons u l ih =>
    have hu : u.ID ≠ id := h u (by simp)
    simp [dropFirst, hu, ih (fun v hv => h v (by simp [hv]))]

theorem markFirst_absent {id : Int} (l : List Task) (h : ∀ u ∈ l, u.ID ≠ id) :
    markFirst id l = l := by
  induction l with
  | nil => rfl
  | cons u l ih =>
    have hu : u.ID ≠ id := h u (by simp)
    simp [markFirst, hu, ih (fun v hv => h v (by simp [hv]))]

theorem deleteTask_eq_dropFirst (s : Store) (id : Int) :
    (deleteTask s (some id)).store
      = { tasks := dropFirst id s.tasks, currentID := s.currentID } := by
  by_cases h : ∃ t ∈ s.tasks, t.ID = id
  · obtain ⟨pre, t, post, hl, ht, hpre⟩ := exists_first_match h
    rw [deleteTask_split s id pre t post hl ht hpre, hl, dropFirst_split pre t post ht hpre]
  · rw [deleteTask_not_found s id h,
      dropFirst_absent s.tasks (fun u hu hid => h ⟨u, hu, hid⟩)]

theorem completeTask_eq_markFirst (s : Store) (id : Int) :
    (completeTask s (some id)).store
      = { tasks := markFirst id s.tasks, currentID := s.currentID } := by
  by_cases h : ∃ t ∈ s.tasks, t.ID = id
  · obtain ⟨pre, t, post, hl, ht, hpre⟩ := exists_first_match h
    rw [completeTask_split s id pre t post hl ht hpre, hl, markFirst_split pre t post ht hpre]
  · rw [completeTask_not_found s id h,
      markFirst_absent s.tasks (fun u hu hid => h ⟨u, hu, hid⟩)]

theorem markCompleted_ID (t : Task) : (markCompleted t).ID = t.ID := rfl

theorem dropFirst_comm {a b : Int} (hab : a ≠ b) (l : List Task) :
    dropFirst b (dropFirst a l) = dropFirst a (dropFirst b l) := by
  induction l with
  | nil => rfl
  | cons t l ih =>
    by_cases ha : t.ID = a
    · have hb : t.ID ≠ b := fun h => hab (ha.symm.trans h)
      simp [dropFirst, ha, hb, hab, Ne.symm hab]
    · by_cases hb : t.ID = b
      · simp [dropFirst, ha, hb, hab, Ne.symm hab]
      · simp [dropFirst, ha, hb, ih, hab, Ne.symm hab]

theorem markFirst_comm {a b : Int} (hab : a ≠ b) (l : List Task) :
    markFirst b (markFirst a l) = markFirst a (markFirst b l) := by
  induction l with
  | nil => rfl
  | cons t l ih =>
    by_cases ha : t.ID = a
    · have hb : t.ID ≠ b := fun h => hab (ha.symm.trans h)
      simp [markFirst, ha, hb, markCompleted_ID, hab, Ne.symm hab]
    · by_cases hb : t.ID = b
      · simp [markFirst, ha, hb, markCompleted_ID, hab, Ne.symm hab]
      · simp [markFirst, ha, hb, ih, hab, Ne.symm hab]

theorem markFirst_dropFirst_comm {a b : Int} (hab : a ≠ b) (l : List Task) :
    dropFirst b (markFirst a l) = markFirst a (dropFirst b l) := by
  induction l with
  | nil => rfl
  | cons t l ih =>
    by_cases ha : t.ID = a
    · have hb : t.ID ≠ b := fun h => hab (ha.symm.trans h)
      simp [markFirst, dropFirst, ha, hb, markCompleted_ID, hab, Ne.symm hab]
    · by_cases hb : t.ID = b
      · simp [markFirst, dropFirst, ha, hb, hab, Ne.symm hab]
      · simp [markFirst, dropFirst, ha, hb, ih, hab, Ne.symm hab]

/-! ## The wrapping counter and the runs of the loop -/

/-- Wrapping before an increment does not change the wrapped result. -/
theorem wrap64_succ (z : Int) : wrap64 (wrap64 z + 1) = wrap64 (z + 1) := by
  unfold wrap64; omega

/-- Inside the range of `int` wrapping changes nothing. -/
theorem wrap64_of_range (z : Int) (hlo : -2 ^ 63 ≤ z) (hhi : z < 2 ^ 63) : wrap64 z = z := by
  unfold wrap64; omega

/-- Wrapping is injective on the numbers from 1 to `2 ^ 64`. -/
theorem wrap64_inj (a b : Nat) (ha : 1 ≤ a) (ha2 : a ≤ 2 ^ 64) (hb : 1 ≤ b) (hb2 : b ≤ 2 ^ 64)
    (h : wrap64 (a : Int) = wrap64 (b : Int)) : a = b := by
  unfold wrap64 at h
  have h64 : (2 : Nat) ^ 64 = 18446744073709551616 := by norm_num
  rw [h64] at ha2 hb2
  omega

/-- A pass either dispatches to a successful `addTask` or leaves the store to
`listTasks`, `completeTask`, `deleteTask` or to nothing at all. -/
theorem iteration_cases (s : Store) (e : Scanned) :
    (addsTask e = true ∧ e.title ≠ ""
        ∧ (iteration s e).store = (addTask s e.title e.description).store)
      ∨ (addsTask e = false
        ∧ ((iteration s e).store = s ∨ (iteration s e).store = (completeTask s e.id).store
          ∨ (iteration s e).store = (deleteTask s e.id).store)) := by
  unfold iteration addsTask
  cases hch : e.choice with
  | none => right; simp
  | some choice =>
    simp only []
    by_cases h1 : choice = 1
    · subst h1
      by_cases ht : e.title = ""
      · right
        simp [ht, addTask_store]
      · left
        simp [ht]
    · right
      have hne : ¬ (some choice = some (1 : Int)) := by simpa using h1
      refine ⟨by simp [hne], ?_⟩
      simp only [h1, if_false]
      split_ifs
      · left; exact listTasks_store s
      · right; left; rfl
      · right; right; rfl
      · left; rfl
      · left; rfl

/-- Induction along a run with a count of the successful additions: a predicate kept by
`completeTask` and `deleteTask` and moved from `n` to `n + 1` by a successful `addTask`
(as long as the count stays within `bound`) holds at the end of the run, for a count that
is the number of successful additions when the run has not exited. -/
theorem mainLoop_counted (bound : Nat) (P : Nat → Store → Prop)
    (hadd : ∀ (n : Nat) (s : Store) (title description : String), P n s → title ≠ "" →
      n + 1 ≤ bound → P (n + 1) (addTask s title description).store)
    (hcomplete : ∀ (n : Nat) (s : Store) (o : Option Int), P n s → P n (completeTask s o).store)
    (hdelete : ∀ (n : Nat) (s : Store) (o : Option Int), P n s → P n (deleteTask s o).store)
    (n : Nat) (s : Store) (ins : List Scanned) (hs : P n s)
    (hb : n + successfulAdds ins ≤ bound) :
    ∃ m, n ≤ m ∧ m ≤ n + successfulAdds ins ∧ P m (mainLoop s ins).store
      ∧ ((mainLoop s ins).exited = false → m = n + successfulAdds ins) := by
  induction ins generalizing n s with
  | nil => exact ⟨n, Nat.le_refl _, by simp [successfulAdds], hs, fun _ => by simp [successfulAdds]⟩
  | cons e rest ih =>
    have hcount : successfulAdds (e :: rest)
        = successfulAdds rest + if addsTask e = true then 1 else 0 := by
      simp only [successfulAdds, List.countP_cons]
    rcases iteration_cases s e with ⟨ha, ht, hst⟩ | ⟨ha, hst⟩
    · rw [ha] at hcount
      simp only [if_true] at hcount
      have hstep : P (n + 1) (iteration s e).store := by
        rw [hst]
        exact hadd n s _ _ hs ht (by omega)
      by_cases hex : (iteration s e).exited = true
      · refine ⟨n + 1, by omega, by omega, ?_, ?_⟩
        · simp only [mainLoop, hex, if_true]
          exact hstep
        · intro hrun
          simp [mainLoop, hex] at hrun
      · obtain ⟨m, h1, h2, h3, h4⟩ := ih (n + 1) (iteration s e).store hstep (by omega)
        refine ⟨m, by omega, by omega, ?_, ?_⟩
        · simp only [mainLoop, hex]
          exact h3
        · intro hrun
          simp only [mainLoop, hex] at hrun
          have := h4 hrun
          omega
    · rw [ha] at hcount
      simp only [Bool.false_eq_true, if_false, Nat.add_zero] at hcount
      have hstep : P n (iteration s e).store := by
        rcases hst with hst | hst | hst
        · rw [hst]; exact hs
        · rw [hst]; exact hcomplete n s _ hs
        · rw [hst]; exact hdelete n s _ hs
      by_cases hex : (iteration s e).exited = true
      · refine ⟨n, Nat.le_refl _, by omega, ?_, ?_⟩
        · simp only [mainLoop, hex, if_true]
          exact hstep
        · intro hrun
          simp [mainLoop, hex] at hrun
      · obtain ⟨m, h1, h2, h3, h4⟩ := ih n (iteration s e).store hstep (by omega)
        refine ⟨m, h1, by omega, ?_, ?_⟩
        · simp only [mainLoop, hex]
          exact h3
        · intro hrun
          simp only [mainLoop, hex] at hrun
          have := h4 hrun
          omega

theorem numbered_initial : Numbered 0 initial := by
  refine ⟨by simp [initial, wrap64], [], List.Pairwise.nil, by simp, by simp [ids, initial]⟩

theorem numbered_addTask (n : Nat) (s : Store) (title description : String)
    (hs : Numbered n s) (ht : title ≠ "") : Numbered (n + 1) (addTask s title description).store := by
  obtain ⟨hc, ks, hpw, hks, hids⟩ := hs
  rw [addTask_store, if_neg ht]
  refine ⟨?_, ks ++ [n + 1], ?_, ?_, ?_⟩
  · simp only []
    rw [hc, wrap64_succ]
    push_cast
    rfl
  · rw [List.pairwise_append]
    refine ⟨hpw, List.pairwise_singleton _ _, ?_⟩
    intro a ha b hb
    rw [List.mem_singleton] at hb
    have := (hks a ha).2
    omega
  · intro k hk
    rw [List.mem_append, List.mem_singleton] at hk
    rcases hk with hk | hk
    · have := hks k hk
      omega
    · omega
  · simp only [ids] at hids ⊢
    simp only [List.map_append, List.map_cons, List.map_nil, hids, hc]
    push_cast
    rfl

theorem numbered_completeTask (n : Nat) (s : Store) (o : Option Int) (hs : Numbered n s) :
    Numbered n (completeTask s o).store := by
  obtain ⟨hi, hc⟩ := completeTask_ids s o
  unfold Numbered
  rw [hi, hc]
  exact hs

theorem numbered_deleteTask (n : Nat) (s : Store) (o : Option Int) (hs : Numbered n s) :
    Numbered n (deleteTask s o).store := by
  obtain ⟨hc, ks, hpw, hks, hids⟩ := hs
  have hsub := deleteTask_ids_sublist s o
  rw [hids, List.sublist_map_iff] at hsub
  obtain ⟨ks2, hsub2, hids2⟩ := hsub
  refine ⟨by rw [(deleteTask_sublist s o).2]; exact hc, ks2, hpw.sublist hsub2, ?_, hids2⟩
  intro k hk
  exact hks k (hsub2.subset hk)

/-- Every run from the initial store ends in a numbered store. -/
theorem numbered_mainLoop (ins : List Scanned) :
    ∃ m, m ≤ successfulAdds ins ∧ Numbered m (mainLoop initial ins).store
      ∧ ((mainLoop initial ins).exited = false → m = successfulAdds ins) := by
  obtain ⟨m, _, h2, h3, h4⟩ := mainLoop_counted (0 + successfulAdds ins) Numbered
    (fun n s t d h ht _ => numbered_addTask n s t d h ht) numbered_completeTask
    numbered_deleteTask 0 initial ins numbered_initial (Nat.le_refl _)
  refine ⟨m, by omega, h3, fun hrun => ?_⟩
  have := h4 hrun
  omega

/-- Up to `2 ^ 64` additions the stored IDs are pairwise different. -/
theorem numbered_nodup {n : Nat} {s : Store} (hs : Numbered n s) (hn : n ≤ 2 ^ 64) :
    (ids s).Nodup := by
  obtain ⟨_, ks, hpw, hks, hids⟩ := hs
  rw [hids]
  refine List.Nodup.map_on ?_ (hpw.imp (fun h => Nat.ne_of_lt h))
  intro a ha b hb hab
  have h1 := hks a ha
  have h2 := hks b hb
  exact wrap64_inj a b h1.1 (by omega) h2.1 (by omega) hab

/-- Up to `2 ^ 63 - 1` additions the stored IDs increase and lie between 1 and the count. -/
theorem numbered_increasing_positive {n : Nat} {s : Store} (hs : Numbered n s)
    (hn : n ≤ 2 ^ 63 - 1) :
    (ids s).Pairwise (fun a b => a < b) ∧ ∀ i ∈ ids s, 1 ≤ i ∧ i ≤ (n : Int) := by
  obtain ⟨_, ks, hpw, hks, hids⟩ := hs
  have h63 : (2 : Nat) ^ 63 = 9223372036854775808 := by norm_num
  rw [h63] at hn
  have hw : ∀ k ∈ ks, wrap64 (k : Int) = (k : Int) := by
    intro k hk
    have := hks k hk
    exact wrap64_of_range _ (by omega) (by omega)
  have hmap : List.map (fun (k : Nat) => wrap64 (k : Int)) ks
      = List.map (fun (k : Nat) => (k : Int)) ks :=
    List.map_congr_left hw
  rw [hids, hmap]
  constructor
  · rw [List.pairwise_map]
    exact hpw.imp (fun h => by omega)
  · intro i hi
    obtain ⟨k, hk, rfl⟩ := List.mem_map.1 hi
    have := hks k hk
    omega

/-- Up to `2 ^ 63 - 2` additions the counter has not wrapped. -/
theorem numbered_below_counter {n : Nat} {s : Store} (hs : Numbered n s)
    (hn : n ≤ 2 ^ 63 - 2) : s.currentID = (n : Int) + 1 := by
  have h63 : (2 : Nat) ^ 63 = 9223372036854775808 := by norm_num
  rw [h63] at hn
  rw [hs.1]
  exact wrap64_of_range _ (by omega) (by omega)

theorem absent_after_delete (s : Store) (id : Int) (hnd : (ids s).Nodup)
    (h : ∃ t ∈ s.tasks, t.ID = id) : id ∉ ids (deleteTask s (some id)).store := by
  obtain ⟨pre, t, post, hl, ht, hpre⟩ := exists_first_match h
  rw [deleteTask_split s id pre t post hl ht hpre]
  simp only [ids, hl, List.map_append, List.map_cons] at hnd
  simp only [ids, List.map_append, List.mem_append, not_or]
  rw [List.nodup_append] at hnd
  obtain ⟨_, hnd2, _⟩ := hnd
  rw [List.nodup_cons] at hnd2
  refine ⟨?_, by rw [← ht]; exact hnd2.1⟩
  intro hmem
  obtain ⟨u, hu, hid⟩ := List.mem_map.1 hmem
  exact hpre u hu hid

theorem iteration_exited_iff (s : Store) (e : Scanned) :
    (iteration s e).exited = true ↔ e.choice = some 5 := by
  unfold iteration
  cases hch : e.choice with
  | none => simp
  | some choice =>
    simp only []
    split_ifs with h1 h2 h3 h4 h5 <;> simp <;> omega

theorem mainLoop_cons (s : Store) (e : Scanned) (rest : List Scanned)
    (he : e.choice ≠ some 5) :
    mainLoop s (e :: rest)
      = { store := (mainLoop (iteration s e).store rest).store,
          output := (iteration s e).output ++ (mainLoop (iteration s e).store rest).output,
          exited := (mainLoop (iteration s e).store rest).exited } := by
  have hex : ¬ (iteration s e).exited = true := fun h => he ((iteration_exited_iff s e).1 h)
  simp [mainLoop, hex]

theorem mainLoop_cons_exit (s : Store) (e : Scanned) (rest : List Scanned)
    (he : e.choice = some 5) : mainLoop s (e :: rest) = iteration s e := by
  have hex : (iteration s e).exited = true := (iteration_exited_iff s e).2 he
  simp only [mainLoop, hex, if_true]

theorem mainLoop_add_last (s : Store) (pre : List Scanned) (e : Scanned)
    (hrun : (mainLoop s pre).exited = false) (hchoice : e.choice = some 1) :
    (mainLoop s (pre ++ [e])).store
      = (addTask (mainLoop s pre).store e.title e.description).store := by
  rw [(mainLoop_append s pre [e] hrun).1, mainLoop_singleton, iteration_add _ _ hchoice]

theorem successfulAdds_churn (c n : Nat) : successfulAdds (churn c n) = n := by
  induction n generalizing c with
  | zero => rfl
  | succ n ih =>
    have h := ih (c + 1)
    simp only [successfulAdds] at h
    simp [churn, successfulAdds, List.countP_cons, addsTask, addPass, deletePass, h]

/-- Running `churn c n` on a store whose counter is the wrap of `c` and whose tasks carry
none of the IDs handed out on the way leaves the tasks as they were and the counter at the
wrap of `c + n`. -/
theorem churn_run (n c : Nat) (s : Store) (hc : s.currentID = wrap64 (c : Int))
    (hfree : ∀ t ∈ s.tasks, ∀ k : Nat, c ≤ k → k < c + n → t.ID ≠ wrap64 (k : Int)) :
    (mainLoop s (churn c n)).store
        = { tasks := s.tasks, currentID := wrap64 ((c : Int) + (n : Int)) }
      ∧ (mainLoop s (churn c n)).exited = false := by
  induction n generalizing c s with
  | zero =>
    simp [churn, mainLoop, ← hc]
  | succ n ih =>
    have hadd : (iteration s (addPass "a" "")).store
        = { tasks := s.tasks ++ [{ ID := wrap64 (c : Int), Title := "a", Description := "",
                                   Completed := false }],
            currentID := wrap64 ((c : Int) + 1) } := by
      rw [iteration_add _ _ rfl, addTask_store, hc, wrap64_succ]
      simp [addPass]
    have hpre : ∀ u ∈ s.tasks, u.ID ≠ wrap64 (c : Int) :=
      fun u hu => hfree u hu c (Nat.le_refl _) (by omega)
    have hdel : (iteration (iteration s (addPass "a" "")).store
          (deletePass (wrap64 (c : Int)))).store
        = { tasks := s.tasks, currentID := wrap64 (((c + 1 : Nat) : Int)) } := by
      rw [iteration_delete _ _ rfl, hadd]
      simp only [deletePass]
      rw [deleteTask_split _ (wrap64 (c : Int)) s.tasks
        { ID := wrap64 (c : Int), Title := "a", Description := "", Completed := false } []
        rfl rfl hpre]
      simp
    have hih := ih (c + 1) { tasks := s.tasks, currentID := wrap64 (((c + 1 : Nat) : Int)) }
      rfl (fun t ht k hk1 hk2 => hfree t ht k (by omega) (by omega))
    have h1 : (addPass "a" "").choice ≠ some 5 := by decide
    have h2 : (deletePass (wrap64 (c : Int))).choice ≠ some 5 := by simp [deletePass]
    simp only [churn]
    rw [mainLoop_cons _ _ _ h1]
    simp only []
    rw [mainLoop_cons _ _ _ h2]
    simp only []
    rw [hdel]
    refine ⟨?_, hih.2⟩
    rw [hih.1]
    simp only [Store.mk.injEq, true_and]
    push_cast
    congr 1
    omega

theorem mainLoop_cons_store (s : Store) (e : Scanned) (rest : List Scanned)
    (he : e.choice ≠ some 5) :
    (mainLoop s (e :: rest)).store = (mainLoop (iteration s e).store rest).store := by
  rw [mainLoop_cons s e rest he]

theorem mainLoop_cons_exited (s : Store) (e : Scanned) (rest : List Scanned)
    (he : e.choice ≠ some 5) :
    (mainLoop s (e :: rest)).exited = (mainLoop (iteration s e).store rest).exited := by
  rw [mainLoop_cons s e rest he]

theorem churn_from_initial (n : Nat) :
    (mainLoop initial (churn 1 n)).store
        = { tasks := [], currentID := wrap64 (1 + (n : Int)) }
      ∧ (mainLoop initial (churn 1 n)).exited = false := by
  have h := churn_run n 1 initial (by simp [initial, wrap64]) (by simp [initial])
  simpa [initial] using h

/-- After `2 ^ 63 - 1` additions, each deleted at once, the store is empty and the counter
is `-2 ^ 63`. -/
theorem run_to_wrap :
    (mainLoop initial (churn 1 (2 ^ 63 - 1))).store = { tasks := [], currentID := -2 ^ 63 }
      ∧ (mainLoop initial (churn 1 (2 ^ 63 - 1))).exited = false := by
  have h := churn_from_initial (2 ^ 63 - 1)
  have hw : wrap64 (1 + ((2 ^ 63 - 1 : Nat) : Int)) = -2 ^ 63 := by norm_num [wrap64]
  rw [hw] at h
  exact h

theorem run_to_top :
    (mainLoop initial (churn 1 (2 ^ 63 - 2))).store
        = { tasks := [], currentID := 2 ^ 63 - 1 }
      ∧ (mainLoop initial (churn 1 (2 ^ 63 - 2))).exited = false := by
  have h := churn_from_initial (2 ^ 63 - 2)
  have hw : wrap64 (1 + ((2 ^ 63 - 2 : Nat) : Int)) = 2 ^ 63 - 1 := by norm_num [wrap64]
  rw [hw] at h
  exact h

theorem churn_around (t1 : Task) (h1 : t1.ID = 1) :
    (mainLoop (Store.mk [t1] (wrap64 ((2 : Nat) : Int))) (churn 2 (2 ^ 64 - 1))).store
        = Store.mk [t1] 1
      ∧ (mainLoop (Store.mk [t1] (wrap64 ((2 : Nat) : Int))) (churn 2 (2 ^ 64 - 1))).exited
          = false := by
  have hw : wrap64 (((2 : Nat) : Int) + ((2 ^ 64 - 1 : Nat) : Int)) = 1 := by
    norm_num [wrap64]
  rw [← hw]
  refine churn_run (2 ^ 64 - 1) 2 _ rfl ?_
  intro t ht k hk1 hk2
  simp only [List.mem_singleton] at ht
  subst ht
  rw [h1]
  simp only [wrap64]
  have h64 : (2 : Nat) ^ 64 = 18446744073709551616 := by norm_num
  rw [h64] at hk2
  omega

theorem first_add_store :
    (iteration initial (addPass "a" "")).store
      = Store.mk [{ ID := 1, Title := "a", Description := "", Completed := false }]
          (wrap64 ((2 : Nat) : Int)) := by
  rw [iteration_add _ _ rfl, addTask_store]
  simp [addPass, initial]

/-- With the first task kept and `2 ^ 64 - 1` further additions, each deleted at once, the
counter is back at 1. -/
theorem run_around :
    (mainLoop initial (addPass "a" "" :: churn 2 (2 ^ 64 - 1))).store
        = Store.mk [{ ID := 1, Title := "a", Description := "", Completed := false }] 1
      ∧ (mainLoop initial (addPass "a" "" :: churn 2 (2 ^ 64 - 1))).exited = false := by
  have hne : (addPass "a" "").choice ≠ some 5 := by decide
  rw [mainLoop_cons_store initial (addPass "a" "") (churn 2 (2 ^ 64 - 1)) hne,
    mainLoop_cons_exited initial (addPass "a" "") (churn 2 (2 ^ 64 - 1)) hne,
    first_add_store]
  exact churn_around _ rfl

theorem add_a_store (s : Store) :
    (addTask s (addPass "a" "").title (addPass "a" "").description).store
      = Store.mk (s.tasks ++ [{ ID := s.currentID, Title := "a", Description := "",
                                 Completed := false }]) (wrap64 (s.currentID + 1)) := by
  rw [addTask_store]
  simp [addPass]

theorem run_past_wrap :
    (mainLoop initial (churn 1 (2 ^ 63 - 1) ++ [addPass "a" ""])).store
      = Store.mk [{ ID := -2 ^ 63, Title := "a", Description := "", Completed := false }]
          (wrap64 (-2 ^ 63 + 1)) := by
  rw [mainLoop_add_last initial (churn 1 (2 ^ 63 - 1)) (addPass "a" "") run_to_wrap.2 rfl,
    run_to_wrap.1, add_a_store]
  rfl

theorem run_past_top :
    (mainLoop initial (churn 1 (2 ^ 63 - 2) ++ [addPass "a" ""])).store
      = Store.mk [{ ID := 2 ^ 63 - 1, Title := "a", Description := "", Completed := false }]
          (-2 ^ 63) := by
  have hw : wrap64 (2 ^ 63 - 1 + 1) = -2 ^ 63 := by norm_num [wrap64]
  rw [mainLoop_add_last initial (churn 1 (2 ^ 63 - 2)) (addPass "a" "") run_to_top.2 rfl,
    run_to_top.1, add_a_store]
  simp only [List.nil_append, hw]

theorem run_around_twice :
    (mainLoop initial (addPass "a" "" :: churn 2 (2 ^ 64 - 1) ++ [addPass "a" ""])).store
      = Store.mk [{ ID := 1, Title := "a", Description := "", Completed := false },
                  { ID := 1, Title := "a", Description := "", Completed := false }] 2 := by
  have hw : wrap64 (1 + 1) = 2 := by norm_num [wrap64]
  rw [mainLoop_add_last initial (addPass "a" "" :: churn 2 (2 ^ 64 - 1)) (addPass "a" "")
    run_around.2 rfl, run_around.1, add_a_store]
  simp only [List.singleton_append, hw]

theorem successfulAdds_append (xs ys : List Scanned) :
    successfulAdds (xs ++ ys) = successfulAdds xs + successfulAdds ys := by
  simp [successfulAdds, List.countP_append]

theorem successfulAdds_cons (e : Scanned) (rest : List Scanned) :
    successfulAdds (e :: rest) = successfulAdds rest + if addsTask e = true then 1 else 0 := by
  simp only [successfulAdds, List.countP_cons]


theorem created_removed_step (s : Store) (e : Scanned)
    (he : e.choice = some 1 ∨ e.choice = some 4) :
    (iteration s e).exited = false
      ∧ ∃ made gone : List Task,
          (∀ rest, createdBy s (e :: rest) = made ++ createdBy (iteration s e).store rest)
          ∧ (∀ rest, removedBy s (e :: rest) = gone ++ removedBy (iteration s e).store rest)
          ∧ (iteration s e).store.tasks.Sublist (s.tasks ++ made)
          ∧ (s.tasks ++ made).Perm ((iteration s e).store.tasks ++ gone) := by
  have hex : (iteration s e).exited = false := by
    rcases he with he | he <;> simp [iteration, he]
  refine ⟨hex, ?_⟩
  rcases he with he | he
  · have h4 : e.choice ≠ some 4 := by rw [he]; decide
    by_cases ht : e.title = ""
    · refine ⟨[], [], ?_, ?_, ?_, ?_⟩
      · intro rest
        simp [createdBy, hex, addsTask, ht]
      · intro rest
        simp [removedBy, hex, h4]
      · rw [iteration_add s e he, addTask_store, if_pos ht]
        simp
      · rw [iteration_add s e he, addTask_store, if_pos ht]
    · refine ⟨[{ ID := s.currentID, Title := e.title, Description := e.description,
                 Completed := false }], [], ?_, ?_, ?_, ?_⟩
      · intro rest
        simp [createdBy, hex, addsTask, ht, he]
      · intro rest
        simp [removedBy, hex, h4]
      · rw [iteration_add s e he, addTask_store, if_neg ht]
      · rw [iteration_add s e he, addTask_store, if_neg ht]
        simp
  · have h1 : ¬ (e.choice = some 1 ∧ e.title ≠ "") := by rw [he]; simp
    have hadds : addsTask e = false := by simp [addsTask, he]
    cases hid : e.id with
    | none =>
      refine ⟨[], [], ?_, ?_, ?_, ?_⟩
      · intro rest
        simp [createdBy, hex, hadds]
      · intro rest
        simp [removedBy, hex, he, hid]
      · rw [iteration_delete s e he, hid]
        simp [deleteTask]
      · rw [iteration_delete s e he, hid]
        simp [deleteTask]
    | some id =>
      by_cases hmem : ∃ t ∈ s.tasks, t.ID = id
      · obtain ⟨pre, t, post, hl, hti, hpre⟩ := exists_first_match hmem
        have hfind : s.tasks.find? (fun u => decide (u.ID = id)) = some t := by
          rw [hl]; exact find?_split pre t post hti hpre
        refine ⟨[], [t], ?_, ?_, ?_, ?_⟩
        · intro rest
          simp [createdBy, hex, hadds]
        · intro rest
          simp [removedBy, hex, he, hid, hfind]
        · rw [iteration_delete s e he, hid, deleteTask_split s id pre t post hl hti hpre, hl]
          simp only [List.append_nil]
          exact List.Sublist.append_left (List.sublist_cons_self t post) pre
        · rw [iteration_delete s e he, hid, deleteTask_split s id pre t post hl hti hpre, hl]
          simp only [List.append_nil]
          have h := @List.perm_middle Task t pre post
          exact h.trans (List.perm_append_singleton t (pre ++ post)).symm
      · have hfind : s.tasks.find? (fun u => decide (u.ID = id)) = none := by
          rw [List.find?_eq_none]
          intro u hu hdec
          exact hmem ⟨u, hu, by simpa using hdec⟩
        refine ⟨[], [], ?_, ?_, ?_, ?_⟩
        · intro rest
          simp [createdBy, hex, hadds]
        · intro rest
          simp [removedBy, hex, he, hid, hfind]
        · rw [iteration_delete s e he, hid, deleteTask_not_found s id hmem]
          simp
        · rw [iteration_delete s e he, hid, deleteTask_not_found s id hmem]

/-- Along a run of addition and deletion passes the store stays a sublist of the earlier
tasks followed by the created ones, which are, up to order, the stored and the removed tasks. -/
theorem created_removed_run (s : Store) (ins : List Scanned)
    (hins : ∀ e ∈ ins, e.choice = some 1 ∨ e.choice = some 4) :
    (mainLoop s ins).store.tasks.Sublist (s.tasks ++ createdBy s ins)
      ∧ (s.tasks ++ createdBy s ins).Perm ((mainLoop s ins).store.tasks ++ removedBy s ins) := by
  induction ins generalizing s with
  | nil => simp [mainLoop, createdBy, removedBy]
  | cons e rest ih =>
    obtain ⟨hex, made, gone, hc, hr, hsub, hperm⟩ :=
      created_removed_step s e (hins e (by simp))
    obtain ⟨ih1, ih2⟩ := ih (iteration s e).store (fun x hx => hins x (by simp [hx]))
    have hrun : (mainLoop s (e :: rest)).store = (mainLoop (iteration s e).store rest).store := by
      simp [mainLoop, hex]
    rw [hrun, hc rest, hr rest]
    constructor
    · refine ih1.trans ?_
      rw [← List.append_assoc]
      exact hsub.append_right _
    · have p1 : (s.tasks ++ (made ++ createdBy (iteration s e).store rest)).Perm
          (((iteration s e).store.tasks ++ gone) ++ createdBy (iteration s e).store rest) := by
        rw [← List.append_assoc]
        exact hperm.append_right _
      have p2 : (((iteration s e).store.tasks ++ gone) ++ createdBy (iteration s e).store rest).Perm
          (gone ++ ((iteration s e).store.tasks ++ createdBy (iteration s e).store rest)) := by
        rw [← List.append_assoc]
        exact List.perm_append_comm.append_right _
      have p3 : (gone ++ ((iteration s e).store.tasks ++ createdBy (iteration s e).store rest)).Perm
          (gone ++ ((mainLoop (iteration s e).store rest).store.tasks
            ++ removedBy (iteration s e).store rest)) := ih2.append_left gone
      have p4 : (gone ++ ((mainLoop (iteration s e).store rest).store.tasks
            ++ removedBy (iteration s e).store rest)).Perm
          ((mainLoop (iteration s e).store rest).store.tasks
            ++ (gone ++ removedBy (iteration s e).store rest)) := by
        rw [← List.append_assoc, ← List.append_assoc]
        exact List.perm_append_comm.append_right _
      exact ((p1.trans p2).trans p3).trans p4

theorem completeTask_member (s : Store) (o : Option Int) :
    ∀ u ∈ (completeTask s o).store.tasks, u ∈ s.tasks ∨ ∃ t ∈ s.tasks, u = markCompleted t := by
  intro u hu
  rcases completeTask_cases s o with h | ⟨pre, t, post, hl, h⟩
  · rw [h] at hu
    exact Or.inl hu
  · rw [h] at hu
    simp only [List.mem_append, List.mem_cons] at hu
    rcases hu with hu | rfl | hu
    · exact Or.inl (by rw [hl]; simp [hu])
    · exact Or.inr ⟨t, by rw [hl]; simp, rfl⟩
    · exact Or.inl (by rw [hl]; simp [hu])

/-- A property of the tasks with a given ID that `completeTask` keeps is kept along a run
as long as the counter does not come back to that ID. -/
theorem mainLoop_keeps (good : Task → Prop) (hgood : ∀ t, good t → good (markCompleted t))
    (id : Int) (k0 n : Nat) (s : Store) (ins : List Scanned)
    (hk1 : 1 ≤ k0) (hk2 : k0 ≤ n) (hid : wrap64 (k0 : Int) = id)
    (hc : s.currentID = wrap64 ((n : Int) + 1))
    (hall : ∀ u ∈ s.tasks, u.ID = id → good u)
    (hb : n + successfulAdds ins ≤ 2 ^ 64) :
    ∀ u ∈ (mainLoop s ins).store.tasks, u.ID = id → good u := by
  have hadd : ∀ (m : Nat) (x : Store) (title description : String),
      (x.currentID = wrap64 ((m : Int) + 1) ∧ k0 ≤ m ∧ ∀ u ∈ x.tasks, u.ID = id → good u) →
      title ≠ "" → m + 1 ≤ 2 ^ 64 →
      ((addTask x title description).store.currentID = wrap64 (((m + 1 : Nat) : Int) + 1)
        ∧ k0 ≤ m + 1
        ∧ ∀ u ∈ (addTask x title description).store.tasks, u.ID = id → good u) := by
    intro m x title description hx ht hm
    obtain ⟨hxc, hxk, hxall⟩ := hx
    rw [addTask_store, if_neg ht]
    refine ⟨?_, by omega, ?_⟩
    · show wrap64 (x.currentID + 1) = wrap64 (((m + 1 : Nat) : Int) + 1)
      rw [hxc, wrap64_succ]
      push_cast
      rfl
    · intro u hu huid
      have hu2 : u ∈ x.tasks ∨ u = Task.mk x.currentID title description false := by
        simpa only [List.mem_append, List.mem_singleton] using hu
      rcases hu2 with hu2 | rfl
      · exact hxall u hu2 huid
      · exfalso
        have huid2 : x.currentID = id := huid
        rw [hxc, ← hid] at huid2
        have hcast : ((m : Int) + 1) = ((m + 1 : Nat) : Int) := by push_cast; rfl
        rw [hcast] at huid2
        have := wrap64_inj (m + 1) k0 (by omega) hm hk1 (by omega) huid2
        omega
  have hcomplete : ∀ (m : Nat) (x : Store) (o : Option Int),
      (x.currentID = wrap64 ((m : Int) + 1) ∧ k0 ≤ m ∧ ∀ u ∈ x.tasks, u.ID = id → good u) →
      ((completeTask x o).store.currentID = wrap64 ((m : Int) + 1) ∧ k0 ≤ m
        ∧ ∀ u ∈ (completeTask x o).store.tasks, u.ID = id → good u) := by
    intro m x o hx
    obtain ⟨hxc, hxk, hxall⟩ := hx
    refine ⟨by rw [(completeTask_ids x o).2]; exact hxc, hxk, ?_⟩
    intro u hu huid
    rcases completeTask_member x o u hu with h | ⟨t, ht, rfl⟩
    · exact hxall u h huid
    · exact hgood t (hxall t ht huid)
  have hdelete : ∀ (m : Nat) (x : Store) (o : Option Int),
      (x.currentID = wrap64 ((m : Int) + 1) ∧ k0 ≤ m ∧ ∀ u ∈ x.tasks, u.ID = id → good u) →
      ((deleteTask x o).store.currentID = wrap64 ((m : Int) + 1) ∧ k0 ≤ m
        ∧ ∀ u ∈ (deleteTask x o).store.tasks, u.ID = id → good u) := by
    intro m x o hx
    obtain ⟨hxc, hxk, hxall⟩ := hx
    refine ⟨by rw [(deleteTask_sublist x o).2]; exact hxc, hxk, ?_⟩
    intro u hu huid
    exact hxall u ((deleteTask_sublist x o).1.subset hu) huid
  obtain ⟨m, _, _, h3, _⟩ := mainLoop_counted (2 ^ 64)
    (fun m x => x.currentID = wrap64 ((m : Int) + 1) ∧ k0 ≤ m
      ∧ ∀ u ∈ x.tasks, u.ID = id → good u)
    hadd hcomplete hdelete n s ins ⟨hc, hk2, hall⟩ hb
  exact h3.2.2

theorem numbered_key {n : Nat} {s : Store} (hs : Numbered n s) (t : Task) (ht : t ∈ s.tasks) :
    ∃ k0 : Nat, 1 ≤ k0 ∧ k0 ≤ n ∧ wrap64 (k0 : Int) = t.ID := by
  obtain ⟨_, ks, _, hks, hids⟩ := hs
  have hmem : t.ID ∈ ids s := List.mem_map_of_mem _ ht
  rw [hids] at hmem
  obtain ⟨k, hk, hkid⟩ := List.mem_map.1 hmem
  exact ⟨k, (hks k hk).1, (hks k hk).2, hkid⟩

theorem iteration_counter_kept (s : Store) (e : Scanned) (h : addsTask e = false) :
    (iteration s e).store.currentID = s.currentID := by
  rcases iteration_cases s e with ⟨ha, _, _⟩ | ⟨_, hst | hst | hst⟩
  · rw [h] at ha
    exact absurd ha (by decide)
  · rw [hst]
  · rw [hst, (completeTask_ids s e.id).2]
  · rw [hst, (deleteTask_sublist s e.id).2]

/-- The IDs of the tasks created along a run of addition and deletion passes are the wraps
of consecutive numbers. -/
theorem createdBy_ids (ins : List Scanned) :
    ∀ (s : Store) (n : Nat), s.currentID = wrap64 ((n : Int) + 1) →
      (∀ e ∈ ins, e.choice = some 1 ∨ e.choice = some 4) →
      (createdBy s ins).map Task.ID
        = List.map (fun (k : Nat) => wrap64 (k : Int))
            (List.range' (n + 1) (successfulAdds ins)) := by
  induction ins with
  | nil =>
    intro s n _ _
    simp [createdBy, successfulAdds]
  | cons e rest ih =>
    intro s n hc hins
    have he := hins e (List.mem_cons_self e rest)
    have hrest : ∀ x ∈ rest, x.choice = some 1 ∨ x.choice = some 4 :=
      fun x hx => hins x (List.mem_cons_of_mem e hx)
    have hex : (iteration s e).exited = false := (created_removed_step s e he).1
    have hunfold : createdBy s (e :: rest)
        = (if addsTask e = true then
            [Task.mk s.currentID e.title e.description false]
           else []) ++ createdBy (iteration s e).store rest := by
      simp [createdBy, hex]
    rw [hunfold, successfulAdds_cons]
    cases hadd : addsTask e with
    | true =>
      have hst : (iteration s e).store = (addTask s e.title e.description).store := by
        rcases iteration_cases s e with ⟨_, _, hst⟩ | ⟨ha, _⟩
        · exact hst
        · rw [hadd] at ha
          exact absurd ha (by decide)
      have hc2 : (iteration s e).store.currentID = wrap64 (((n + 1 : Nat) : Int) + 1) := by
        rw [hst, addTask_store]
        have ht : e.title ≠ "" := by
          rcases iteration_cases s e with ⟨_, ht, _⟩ | ⟨ha, _⟩
          · exact ht
          · rw [hadd] at ha
            exact absurd ha (by decide)
        rw [if_neg ht]
        show wrap64 (s.currentID + 1) = wrap64 (((n + 1 : Nat) : Int) + 1)
        rw [hc, wrap64_succ]
        push_cast
        rfl
      have hih := ih (iteration s e).store (n + 1) hc2 hrest
      simp only [if_true, List.singleton_append, List.map_cons, hih]
      rw [List.range'_succ, List.map_cons, hc]
      push_cast
      rfl
    | false =>
      have hc2 : (iteration s e).store.currentID = wrap64 ((n : Int) + 1) := by
        rw [iteration_counter_kept s e hadd, hc]
      have hih := ih (iteration s e).store n hc2 hrest
      simp [hih]

theorem createdBy_nodup (ins : List Scanned)
    (hins : ∀ e ∈ ins, e.choice = some 1 ∨ e.choice = some 4)
    (hb : successfulAdds ins ≤ 2 ^ 64) : (createdBy initial ins).Nodup := by
  have hids := createdBy_ids ins initial 0 (by simp [initial, wrap64]) hins
  have hnd : ((createdBy initial ins).map Task.ID).Nodup := by
    rw [hids]
    refine List.Nodup.map_on ?_ (List.nodup_range' _ _)
    intro a ha b hb2 hab
    rw [List.mem_range'_1] at ha hb2
    exact wrap64_inj a b (by omega) (by omega) (by omega) (by omega) hab
  exact List.Nodup.of_map _ hnd

/-- A sublist of a duplicate-free list is determined by the elements left out. -/
theorem sublist_eq_filter_of_perm (l c r : List Task) (hs : l.Sublist c)
    (hp : c.Perm (l ++ r)) (hn : c.Nodup) :
    l = c.filter (fun t => decide (t ∉ r)) := by
  have hlr : (l ++ r).Nodup := hp.nodup_iff.1 hn
  have hdisj := (List.nodup_append.1 hlr).2.2
  have hperm : l.Perm (c.filter (fun t => decide (t ∉ r))) := by
    rw [List.perm_ext_iff_of_nodup (List.nodup_append.1 hlr).1 (hn.filter _)]
    intro a
    simp only [List.mem_filter, decide_eq_true_eq]
    constructor
    · intro ha
      exact ⟨hs.subset ha, fun har => hdisj ha har⟩
    · rintro ⟨hac, har⟩
      have := hp.subset hac
      rcases List.mem_append.1 this with h | h
      · exact h
      · exact absurd h har
  have hfl : l.filter (fun t => decide (t ∉ r)) = l := by
    rw [List.filter_eq_self]
    intro a ha
    exact decide_eq_true (fun har => hdisj ha har)
  have hsub : l.Sublist (c.filter (fun t => decide (t ∉ r))) := by
    have h := hs.filter (fun t => decide (t ∉ r))
    rw [hfl] at h
    exact h
  exact hsub.eq_of_length hperm.length_eq

/-! ## Claims -/

/-- Claim C1, bounded form: for every store and every non-empty title (any description),
`addTask` appends exactly one task at the end, carrying the current value of `currentID`, the
given title and description and `Completed = false`; the length grows by one and every
earlier position holds the task it held before. `currentID` becomes `currentID + 1` in the
arithmetic of `int`: it grows by exactly 1 whenever it is an `int` value below the largest
one, `2 ^ 63 - 1`. -/
theorem addTask_appends_one_task (s : Store) (title description : String)
    (h : title ≠ "") :
    (addTask s title description).store.tasks
        = s.tasks ++ [{ ID := s.currentID, Title := title, Description := description,
                        Completed := false }]
      ∧ (addTask s title description).store.tasks.length = s.tasks.length + 1
      ∧ (∀ i : Nat, i < s.tasks.length →
          (addTask s title description).store.tasks[i]? = s.tasks[i]?)
      ∧ (addTask s title description).store.currentID = wrap64 (s.currentID + 1)
      ∧ (-2 ^ 63 ≤ s.currentID → s.currentID < 2 ^ 63 - 1 →
          (addTask s title description).store.currentID = s.currentID + 1) := by
  rw [addTask_store, if_neg h]
  refine ⟨rfl, by simp, ?_, rfl, ?_⟩
  · intro i hi
    simp [List.getElem?_append_left hi]
  · intro hlo hhi
    exact wrap64_of_range _ (by omega) (by omega)

/-- Witness for C1: adding "bread" with an empty description to the sample store, whose
counter is 4. -/
theorem addTask_appends_one_task_witness :
    "bread" ≠ "" ∧ -2 ^ 63 ≤ sampleStore.currentID ∧ sampleStore.currentID < 2 ^ 63 - 1
      ∧ (addTask sampleStore "bread" "").store.tasks
          = [{ ID := 1, Title := "tea", Description := "green", Completed := true },
             { ID := 3, Title := "milk", Description := "2%", Completed := false },
             { ID := 4, Title := "bread", Description := "", Completed := false }]
      ∧ (addTask sampleStore "bread" "").store.currentID = sampleStore.currentID + 1 :=
  ⟨by decide, by decide, by decide, by decide,
    (addTask_appends_one_task sampleStore "bread" "" (by decide)).2.2.2.2
      (by decide) (by decide)⟩

/-- Counterexample to C1 as stated: when `currentID` is the largest `int` value,
`2 ^ 63 - 1`, a successful `addTask` leaves the counter at `-2 ^ 63`, not at
`currentID + 1`. -/
theorem addTask_counter_wraps_at_top :
    "milk" ≠ "" ∧ topStore.currentID = 2 ^ 63 - 1
      ∧ (addTask topStore "milk" "").store.currentID = -2 ^ 63
      ∧ (addTask topStore "milk" "").store.currentID ≠ topStore.currentID + 1 := by
  have hs : (addTask topStore "milk" "").store.currentID = -2 ^ 63 := by
    rw [addTask_store, if_neg (by decide)]
    show wrap64 (2 ^ 63 - 1 + 1) = -2 ^ 63
    norm_num [wrap64]
  refine ⟨by decide, rfl, hs, ?_⟩
  rw [hs]
  show (-2 ^ 63 : Int) ≠ 2 ^ 63 - 1 + 1
  norm_num

/-- Claim C2: for every store and every description, `addTask` with the empty title writes
the error message and returns the store as it was: same task sequence, same `currentID`. -/
theorem addTask_empty_title_rejected (s : Store) (description : String) :
    addTask s "" description
        = { store := s,
            output := ["Enter task title: ", "Enter task description: ",
                       "Error: Title cannot be empty!\n"] }
      ∧ (addTask s "" description).store.tasks = s.tasks
      ∧ (addTask s "" description).store.currentID = s.currentID := by
  simp [addTask, println]

/-- Claim C3, bounded form: in a run from the initial store, whatever passes `pre` came before
(additions, rejected additions, listings, completions, deletions, invalid input) as long as
the loop is still running, a pass that adds a task with a non-empty title appends a task
whose ID is the wrap of `k`, the number of successful additions in `pre` plus 1; the ID is
`k` itself as long as `k ≤ 2 ^ 63 - 1`. -/
theorem kth_successful_add_gets_id_k (pre : List Scanned) (e : Scanned)
    (hrun : (mainLoop initial pre).exited = false)
    (hchoice : e.choice = some 1) (htitle : e.title ≠ "") :
    (mainLoop initial (pre ++ [e])).store.tasks
        = (mainLoop initial pre).store.tasks
            ++ [{ ID := wrap64 ((successfulAdds pre : Int) + 1), Title := e.title,
                  Description := e.description, Completed := false }]
      ∧ (successfulAdds pre < 2 ^ 63 - 1 →
          (mainLoop initial (pre ++ [e])).store.tasks
            = (mainLoop initial pre).store.tasks
                ++ [{ ID := (successfulAdds pre : Int) + 1, Title := e.title,
                      Description := e.description, Completed := false }]) := by
  obtain ⟨m, _, hnum, hm⟩ := numbered_mainLoop pre
  have hcur : (mainLoop initial pre).store.currentID
      = wrap64 ((successfulAdds pre : Int) + 1) := by
    rw [hnum.1, hm hrun]
  have hfirst : (mainLoop initial (pre ++ [e])).store.tasks
      = (mainLoop initial pre).store.tasks
          ++ [{ ID := wrap64 ((successfulAdds pre : Int) + 1), Title := e.title,
                Description := e.description, Completed := false }] := by
    rw [mainLoop_add_last _ _ _ hrun hchoice, addTask_store, if_neg htitle, hcur]
  refine ⟨hfirst, fun hk => ?_⟩
  have h63 : (2 : Nat) ^ 63 = 9223372036854775808 := by norm_num
  rw [h63] at hk
  rw [hfirst, wrap64_of_range _ (by omega) (by omega)]

/-- Witness for C3: after an addition, its deletion, a rejected addition, a completion of an
unknown id and a listing, the second successful addition gets ID 2. -/
theorem kth_successful_add_gets_id_k_witness :
    (mainLoop initial
        [addPass "milk" "2%", deletePass 1, addPass "" "x", completePass 9, listPass]).exited
        = false
      ∧ (addPass "tea" "green").choice = some 1 ∧ (addPass "tea" "green").title ≠ ""
      ∧ successfulAdds
          [addPass "milk" "2%", deletePass 1, addPass "" "x", completePass 9, listPass] = 1
      ∧ successfulAdds
          [addPass "milk" "2%", deletePass 1, addPass "" "x", completePass 9, listPass]
          < 2 ^ 63 - 1
      ∧ (mainLoop initial
          ([addPass "milk" "2%", deletePass 1, addPass "" "x", completePass 9, listPass]
            ++ [addPass "tea" "green"])).store.tasks
          = [{ ID := 2, Title := "tea", Description := "green", Completed := false }] :=
  ⟨by decide, by decide, by decide, by decide, by decide,
    ((kth_successful_add_gets_id_k
      [addPass "milk" "2%", deletePass 1, addPass "" "x", completePass 9, listPass]
      (addPass "tea" "green") (by decide) (by decide) (by decide)).2 (by decide)).trans
      (by decide)⟩

/-- Counterexample to C3 as stated: after `2 ^ 63 - 1` successful additions (each task
deleted again at once, so the store stays empty) the next successful addition is number
`2 ^ 63`, and the task it creates has ID `-2 ^ 63`. -/
theorem kth_add_id_wraps :
    (mainLoop initial (churn 1 (2 ^ 63 - 1))).exited = false
      ∧ (successfulAdds (churn 1 (2 ^ 63 - 1)) : Int) + 1 = 2 ^ 63
      ∧ (mainLoop initial (churn 1 (2 ^ 63 - 1) ++ [addPass "a" ""])).store.tasks
          = [{ ID := -2 ^ 63, Title := "a", Description := "", Completed := false }]
      ∧ (mainLoop initial (churn 1 (2 ^ 63 - 1) ++ [addPass "a" ""])).store.tasks
          ≠ (mainLoop initial (churn 1 (2 ^ 63 - 1))).store.tasks
              ++ [{ ID := (successfulAdds (churn 1 (2 ^ 63 - 1)) : Int) + 1, Title := "a",
                    Description := "", Completed := false }] := by
  have hcount : (successfulAdds (churn 1 (2 ^ 63 - 1)) : Int) + 1 = 2 ^ 63 := by
    rw [successfulAdds_churn]
    norm_num
  refine ⟨run_to_wrap.2, hcount, by rw [run_past_wrap], ?_⟩
  rw [run_past_wrap, run_to_wrap.1, hcount]
  simp

/-- Claim C4, bounded form: in every state reached from the initial store by a run with at most
`2 ^ 63 - 1` successful additions every task ID is positive; with at most `2 ^ 64`
successful additions no two stored tasks share an ID, and once a deletion pass has removed a
task with ID `id`, no task of any later state of the run carries `id` (so it is neither
still stored nor handed to a later task). -/
theorem ids_positive_unique_never_reused :
    (∀ ins : List Scanned, successfulAdds ins ≤ 2 ^ 63 - 1 →
        ∀ t ∈ (mainLoop initial ins).store.tasks, 0 < t.ID)
      ∧ (∀ ins : List Scanned, successfulAdds ins ≤ 2 ^ 64 →
        ((mainLoop initial ins).store.tasks.map Task.ID).Nodup)
      ∧ (∀ (pre post : List Scanned) (e : Scanned) (id : Int),
          successfulAdds (pre ++ e :: post) ≤ 2 ^ 64 →
          (mainLoop initial pre).exited = false →
          e.choice = some 4 → e.id = some id →
          (∃ t ∈ (mainLoop initial pre).store.tasks, t.ID = id) →
          ∀ t ∈ (mainLoop initial (pre ++ e :: post)).store.tasks, t.ID ≠ id) := by
  refine ⟨?_, ?_, ?_⟩
  · intro ins hb t ht
    obtain ⟨m, hm, hnum, _⟩ := numbered_mainLoop ins
    have := ((numbered_increasing_positive hnum (by omega)).2 t.ID
      (List.mem_map_of_mem _ ht)).1
    omega
  · intro ins hb
    obtain ⟨m, hm, hnum, _⟩ := numbered_mainLoop ins
    exact numbered_nodup hnum (by omega)
  · intro pre post e id hb hrun hchoice hid hmem t ht heq
    obtain ⟨m, hm, hnum, hmeq⟩ := numbered_mainLoop pre
    have hadds : addsTask e = false := by simp [addsTask, hchoice]
    have hcount : successfulAdds (pre ++ e :: post)
        = successfulAdds pre + successfulAdds post := by
      rw [successfulAdds_append, successfulAdds_cons, hadds]
      simp
    have hm64 : m ≤ 2 ^ 64 := by omega
    obtain ⟨u, hu, huid⟩ := hmem
    obtain ⟨k0, hk1, hk2, hk3⟩ := numbered_key hnum u hu
    have habsent := absent_after_delete (mainLoop initial pre).store id
      (numbered_nodup hnum hm64) ⟨u, hu, huid⟩
    have hne5 : e.choice ≠ some 5 := by rw [hchoice]; decide
    have hstore : (mainLoop initial (pre ++ e :: post)).store
        = (mainLoop (deleteTask (mainLoop initial pre).store (some id)).store post).store := by
      rw [(mainLoop_append initial pre (e :: post) hrun).1, mainLoop_cons _ _ _ hne5,
        iteration_delete _ _ hchoice, hid]
    rw [hstore] at ht
    refine mainLoop_keeps (fun _ => False) (fun _ h => h) id k0 m _ post hk1 hk2
      (by rw [hk3, huid]) ?_ ?_ ?_ t ht heq
    · rw [(deleteTask_sublist _ _).2]
      exact hnum.1
    · intro v hv hvid
      have hmemv := List.mem_map_of_mem Task.ID hv
      rw [hvid] at hmemv
      exact habsent hmemv
    · have := hmeq hrun
      omega

/-- Witness for C4: two additions, deletion of ID 1, then two more additions; the store then
holds IDs 2, 3, 4, all positive and pairwise different, and no task carries ID 1. -/
theorem ids_positive_unique_never_reused_witness :
    successfulAdds ([addPass "milk" "2%", addPass "tea" ""]
        ++ deletePass 1 :: [addPass "bread" "", addPass "jam" ""]) ≤ 2 ^ 63 - 1
      ∧ successfulAdds ([addPass "milk" "2%", addPass "tea" ""]
        ++ deletePass 1 :: [addPass "bread" "", addPass "jam" ""]) ≤ 2 ^ 64
      ∧ (mainLoop initial [addPass "milk" "2%", addPass "tea" ""]).exited = false
      ∧ (deletePass 1).choice = some 4 ∧ (deletePass 1).id = some 1
      ∧ (∃ t ∈ (mainLoop initial [addPass "milk" "2%", addPass "tea" ""]).store.tasks,
          t.ID = 1)
      ∧ (mainLoop initial ([addPass "milk" "2%", addPass "tea" ""]
          ++ deletePass 1 :: [addPass "bread" "", addPass "jam" ""])).store.tasks.map Task.ID
          = [2, 3, 4]
      ∧ (∀ t ∈ (mainLoop initial ([addPass "milk" "2%", addPass "tea" ""]
          ++ deletePass 1 :: [addPass "bread" "", addPass "jam" ""])).store.tasks, 0 < t.ID)
      ∧ ((mainLoop initial ([addPass "milk" "2%", addPass "tea" ""]
          ++ deletePass 1 :: [addPass "bread" "", addPass "jam" ""])).store.tasks.map
            Task.ID).Nodup
      ∧ (∀ t ∈ (mainLoop initial ([addPass "milk" "2%", addPass "tea" ""]
          ++ deletePass 1 :: [addPass "bread" "", addPass "jam" ""])).store.tasks, t.ID ≠ 1) :=
  ⟨by decide, by decide, by decide, by decide, by decide, by decide, by decide,
    ids_positive_unique_never_reused.1 ([addPass "milk" "2%", addPass "tea" ""]
      ++ deletePass 1 :: [addPass "bread" "", addPass "jam" ""]) (by decide),
    ids_positive_unique_never_reused.2.1 ([addPass "milk" "2%", addPass "tea" ""]
      ++ deletePass 1 :: [addPass "bread" "", addPass "jam" ""]) (by decide),
    ids_positive_unique_never_reused.2.2 [addPass "milk" "2%", addPass "tea" ""]
      [addPass "bread" "", addPass "jam" ""] (deletePass 1) 1
      (by decide) (by decide) (by decide) (by decide) (by decide)⟩

/-- Counterexample to C4 as stated: after `2 ^ 63` successful additions (all but the last
task deleted again at once) the store holds a task with ID `-2 ^ 63`, which is not
positive; and after `2 ^ 64 + 1` successful additions, of which the first and the last task
are kept, both stored tasks have ID 1. -/
theorem task_id_negative_after_wrap :
    successfulAdds (churn 1 (2 ^ 63 - 1) ++ [addPass "a" ""]) = 2 ^ 63
      ∧ (¬ ∀ t ∈ (mainLoop initial (churn 1 (2 ^ 63 - 1) ++ [addPass "a" ""])).store.tasks,
          0 < t.ID)
      ∧ successfulAdds (addPass "a" "" :: churn 2 (2 ^ 64 - 1) ++ [addPass "a" ""])
          = 2 ^ 64 + 1
      ∧ ¬ ((mainLoop initial (addPass "a" "" :: churn 2 (2 ^ 64 - 1)
            ++ [addPass "a" ""])).store.tasks.map Task.ID).Nodup := by
  refine ⟨?_, ?_, ?_, ?_⟩
  · rw [successfulAdds_append, successfulAdds_churn]
    simp [successfulAdds, addsTask, addPass]
  · rw [run_past_wrap]
    intro h
    have := h _ (List.mem_singleton.2 rfl)
    simp at this
  · rw [successfulAdds_append, successfulAdds_cons, successfulAdds_churn]
    simp [successfulAdds, addsTask, addPass]
  · rw [run_around_twice]
    decide

/-- Claim C5: for every run made only of addition and deletion passes from the initial
store, the resulting task sequence is a sublist of the tasks created by the successful
additions, in the order of their creation, and the created tasks are, up to order, the
stored tasks together with the tasks taken out by the successful deletions: the store holds
exactly the added tasks that have not been deleted, in the order in which they were
added. As long as the run has at most `2 ^ 64` successful additions no two created tasks are
equal, and the store is the list of created tasks without the ones taken out. -/
theorem add_delete_run_lists_live_tasks_in_order (ins : List Scanned)
    (hins : ∀ e ∈ ins, e.choice = some 1 ∨ e.choice = some 4) :
    (mainLoop initial ins).store.tasks.Sublist (createdBy initial ins)
      ∧ (createdBy initial ins).Perm
          ((mainLoop initial ins).store.tasks ++ removedBy initial ins)
      ∧ (successfulAdds ins ≤ 2 ^ 64 →
          (createdBy initial ins).Nodup
            ∧ (mainLoop initial ins).store.tasks
                = (createdBy initial ins).filter
                    (fun t => decide (t ∉ removedBy initial ins))) := by
  have h := created_removed_run initial ins hins
  have h1 : (mainLoop initial ins).store.tasks.Sublist (createdBy initial ins) := by
    simpa [initial] using h.1
  have h2 : (createdBy initial ins).Perm
      ((mainLoop initial ins).store.tasks ++ removedBy initial ins) := by
    simpa [initial] using h.2
  refine ⟨h1, h2, fun hb => ?_⟩
  have hn := createdBy_nodup ins hins hb
  exact ⟨hn, sublist_eq_filter_of_perm _ _ _ h1 h2 hn⟩

/-- Witness for C5: three additions with a deletion of ID 1 in between and a deletion of the
unknown ID 7 at the end: three tasks created, the first taken out, the second and third
stored in that order. -/
theorem add_delete_run_lists_live_tasks_in_order_witness :
    (∀ e ∈ [addPass "milk" "2%", addPass "tea" "", deletePass 1, addPass "jam" "",
            deletePass 7], e.choice = some 1 ∨ e.choice = some 4)
      ∧ successfulAdds [addPass "milk" "2%", addPass "tea" "", deletePass 1,
            addPass "jam" "", deletePass 7] ≤ 2 ^ 64
      ∧ createdBy initial [addPass "milk" "2%", addPass "tea" "", deletePass 1,
            addPass "jam" "", deletePass 7]
          = [{ ID := 1, Title := "milk", Description := "2%", Completed := false },
             { ID := 2, Title := "tea", Description := "", Completed := false },
             { ID := 3, Title := "jam", Description := "", Completed := false }]
      ∧ removedBy initial [addPass "milk" "2%", addPass "tea" "", deletePass 1,
            addPass "jam" "", deletePass 7]
          = [{ ID := 1, Title := "milk", Description := "2%", Completed := false }]
      ∧ (mainLoop initial [addPass "milk" "2%", addPass "tea" "", deletePass 1,
            addPass "jam" "", deletePass 7]).store.tasks
          = [{ ID := 2, Title := "tea", Description := "", Completed := false },
             { ID := 3, Title := "jam", Description := "", Completed := false }]
      ∧ (mainLoop initial [addPass "milk" "2%", addPass "tea" "", deletePass 1,
            addPass "jam" "", deletePass 7]).store.tasks
          = (createdBy initial [addPass "milk" "2%", addPass "tea" "", deletePass 1,
              addPass "jam" "", deletePass 7]).filter
              (fun t => decide (t ∉ removedBy initial [addPass "milk" "2%", addPass "tea" "",
                deletePass 1, addPass "jam" "", deletePass 7])) :=
  ⟨by decide, by decide, by decide, by decide, by decide,
    ((add_delete_run_lists_live_tasks_in_order
      [addPass "milk" "2%", addPass "tea" "", deletePass 1, addPass "jam" "", deletePass 7]
      (by decide)).2.2 (by decide)).2⟩

/-- Claim C6: for every store holding a task with the given id, after `completeTask` the
first task with that id has `Completed = true`, and running `completeTask` with the same id
once more gives exactly the store of the first run. -/
theorem completeTask_marks_first_and_idempotent (s : Store) (id : Int)
    (h : ∃ t ∈ s.tasks, t.ID = id) :
    ((completeTask s (some id)).store.tasks.find? (fun t => decide (t.ID = id))).map
        Task.Completed = some true
      ∧ (completeTask (completeTask s (some id)).store (some id)).store
          = (completeTask s (some id)).store := by
  obtain ⟨pre, t, post, hl, ht, hpre⟩ := exists_first_match h
  have h1 := completeTask_split s id pre t post hl ht hpre
  have ht2 : (markCompleted t).ID = id := ht
  constructor
  · rw [h1]
    simp only []
    rw [find?_split pre (markCompleted t) post ht2 hpre]
    rfl
  · rw [h1]
    exact completeTask_split _ id pre (markCompleted t) post rfl ht2 hpre

/-- Witness for C6: completing ID 3 in the sample store. -/
theorem completeTask_marks_first_and_idempotent_witness :
    (∃ t ∈ sampleStore.tasks, t.ID = 3)
      ∧ (completeTask sampleStore (some 3)).store
          = { tasks := [{ ID := 1, Title := "tea", Description := "green", Completed := true },
                        { ID := 3, Title := "milk", Description := "2%", Completed := true }],
              currentID := 4 }
      ∧ (completeTask (completeTask sampleStore (some 3)).store (some 3)).store
          = (completeTask sampleStore (some 3)).store :=
  ⟨by decide, by decide,
    (completeTask_marks_first_and_idempotent sampleStore 3 (by decide)).2⟩

/-- Claim C7: for every store and every id, `completeTask` leaves `currentID`, the number of
tasks and the sequences of IDs, titles and descriptions as they were, and a position whose
task differs afterwards is the first position whose task has the given id, where only the
`Completed` flag has been set; all other positions (later tasks with the same id included)
hold the same task as before. -/
theorem completeTask_frame (s : Store) (id : Int) :
    (completeTask s (some id)).store.currentID = s.currentID
      ∧ (completeTask s (some id)).store.tasks.length = s.tasks.length
      ∧ (completeTask s (some id)).store.tasks.map Task.ID = s.tasks.map Task.ID
      ∧ (completeTask s (some id)).store.tasks.map Task.Title = s.tasks.map Task.Title
      ∧ (completeTask s (some id)).store.tasks.map Task.Description
          = s.tasks.map Task.Description
      ∧ (∀ i : Nat, (completeTask s (some id)).store.tasks[i]? ≠ s.tasks[i]? →
          ∃ t : Task, s.tasks[i]? = some t ∧ t.ID = id
            ∧ (∀ (j : Nat) (u : Task), j < i → s.tasks[j]? = some u → u.ID ≠ id)
            ∧ (completeTask s (some id)).store.tasks[i]?
                = some { t with Completed := true }) := by
  by_cases h : ∃ t ∈ s.tasks, t.ID = id
  · obtain ⟨pre, t, post, hl, ht, hpre⟩ := exists_first_match h
    rw [completeTask_split s id pre t post hl ht hpre, hl]
    refine ⟨rfl, by simp, by simp [markCompleted], by simp [markCompleted],
      by simp [markCompleted], ?_⟩
    intro i hi
    simp only [] at hi
    rcases Nat.lt_trichotomy i pre.length with hlt | heq | hgt
    · exact absurd (by simp [List.getElem?_append_left hlt]) hi
    · subst heq
      refine ⟨t, getElem?_split pre t post, ht, ?_, getElem?_split pre _ post⟩
      intro j u hj hu
      rw [List.getElem?_append_left hj] at hu
      exact hpre u (List.getElem?_mem hu)
    · refine absurd ?_ hi
      have hle : pre.length ≤ i := by omega
      rw [List.getElem?_append_right hle, List.getElem?_append_right hle]
      obtain ⟨k, hk⟩ : ∃ k, i - pre.length = k + 1 := ⟨i - pre.length - 1, by omega⟩
      simp [hk]
  · rw [completeTask_not_found s id h]
    refine ⟨rfl, rfl, rfl, rfl, rfl, ?_⟩
    intro i hi
    exact absurd rfl hi

/-- Witness for C7: in a store with two tasks of ID 2, completing ID 2 changes position 0
(the first match) and leaves the second task with ID 2 as it was. -/
theorem completeTask_frame_witness :
    (completeTask twinStore (some 2)).store.tasks[0]? ≠ twinStore.tasks[0]?
      ∧ (completeTask twinStore (some 2)).store.tasks[1]? = twinStore.tasks[1]?
      ∧ (∃ t : Task, twinStore.tasks[0]? = some t ∧ t.ID = 2
          ∧ (∀ (j : Nat) (u : Task), j < 0 → twinStore.tasks[j]? = some u → u.ID ≠ 2)
          ∧ (completeTask twinStore (some 2)).store.tasks[0]?
              = some { t with Completed := true }) :=
  ⟨by decide, by decide, (completeTask_frame twinStore 2).2.2.2.2.2 0 (by decide)⟩

/-- Claim C8: for every store and every id carried by no stored task, `completeTask` and
`deleteTask` both write "Task not found!" and return the store unchanged (same task
sequence, same `currentID`). -/
theorem complete_delete_unknown_id (s : Store) (id : Int)
    (h : ∀ t ∈ s.tasks, t.ID ≠ id) :
    completeTask s (some id)
        = { store := s, output := ["Enter task ID to complete: ", "Task not found!\n"] }
      ∧ deleteTask s (some id)
        = { store := s, output := ["Enter task ID to delete: ", "Task not found!\n"] } :=
  ⟨completeTask_not_found s id (fun ⟨t, ht, hid⟩ => h t ht hid),
    deleteTask_not_found s id (fun ⟨t, ht, hid⟩ => h t ht hid)⟩

/-- Witness for C8: the sample store holds IDs 1 and 3, so ID 2 is unknown. -/
theorem complete_delete_unknown_id_witness :
    (∀ t ∈ sampleStore.tasks, t.ID ≠ 2)
      ∧ completeTask sampleStore (some 2)
        = { store := sampleStore,
            output := ["Enter task ID to complete: ", "Task not found!\n"] }
      ∧ deleteTask sampleStore (some 2)
        = { store := sampleStore,
            output := ["Enter task ID to delete: ", "Task not found!\n"] } :=
  ⟨by decide, complete_delete_unknown_id sampleStore 2 (by decide)⟩

/-- Claim C9: for every store holding a task with the given id, `deleteTask` removes exactly
the first task with that id: the sequence splits as `pre ++ t :: post` with `t` the first
match, the result is `pre ++ post` (one task fewer, all others unchanged and in their
order), and `currentID` is unchanged. -/
theorem deleteTask_removes_first_match (s : Store) (id : Int)
    (h : ∃ t ∈ s.tasks, t.ID = id) :
    ∃ pre t post, s.tasks = pre ++ t :: post ∧ t.ID = id ∧ (∀ u ∈ pre, u.ID ≠ id)
      ∧ (deleteTask s (some id)).store.tasks = pre ++ post
      ∧ (deleteTask s (some id)).store.tasks.length + 1 = s.tasks.length
      ∧ (deleteTask s (some id)).store.currentID = s.currentID := by
  obtain ⟨pre, t, post, hl, ht, hpre⟩ := exists_first_match h
  refine ⟨pre, t, post, hl, ht, hpre, ?_⟩
  rw [deleteTask_split s id pre t post hl ht hpre, hl]
  refine ⟨rfl, ?_, rfl⟩
  simp only [List.length_append, List.length_cons]
  omega

/-- Witness for C9: deleting ID 2 from the store with two tasks of ID 2 removes the first
of them only. -/
theorem deleteTask_removes_first_match_witness :
    (∃ t ∈ twinStore.tasks, t.ID = 2)
      ∧ (deleteTask twinStore (some 2)).store
          = { tasks := [{ ID := 2, Title := "milk", Description := "", Completed := false }],
              currentID := 3 }
      ∧ (∃ pre t post, twinStore.tasks = pre ++ t :: post ∧ t.ID = 2
          ∧ (∀ u ∈ pre, u.ID ≠ 2)
          ∧ (deleteTask twinStore (some 2)).store.tasks = pre ++ post
          ∧ (deleteTask twinStore (some 2)).store.tasks.length + 1 = twinStore.tasks.length
          ∧ (deleteTask twinStore (some 2)).store.currentID = twinStore.currentID) :=
  ⟨by decide, by decide, deleteTask_removes_first_match twinStore 2 (by decide)⟩

/-- Claim C10, bounded form: in every state reached from the initial store by a run with at most
`2 ^ 64` successful additions, when `deleteTask` with an id reports success, no task with
that id remains, and an immediately repeated `deleteTask` or a `completeTask` with the same
id writes "Task not found!" and changes nothing. -/
theorem deleted_id_not_found_afterwards (ins : List Scanned) (id : Int)
    (hbound : successfulAdds ins ≤ 2 ^ 64)
    (hdel : (deleteTask (mainLoop initial ins).store (some id)).output
      = ["Enter task ID to delete: ", "Task deleted successfully!\n"]) :
    (∀ t ∈ (deleteTask (mainLoop initial ins).store (some id)).store.tasks, t.ID ≠ id)
      ∧ deleteTask (deleteTask (mainLoop initial ins).store (some id)).store (some id)
          = { store := (deleteTask (mainLoop initial ins).store (some id)).store,
              output := ["Enter task ID to delete: ", "Task not found!\n"] }
      ∧ completeTask (deleteTask (mainLoop initial ins).store (some id)).store (some id)
          = { store := (deleteTask (mainLoop initial ins).store (some id)).store,
              output := ["Enter task ID to complete: ", "Task not found!\n"] } := by
  have hmem : ∃ t ∈ (mainLoop initial ins).store.tasks, t.ID = id := by
    by_contra hno
    rw [deleteTask_not_found _ id hno] at hdel
    simp at hdel
  obtain ⟨m, hm, hnum, _⟩ := numbered_mainLoop ins
  have habsent := absent_after_delete _ id (numbered_nodup hnum (by omega)) hmem
  have hno : ¬ ∃ t ∈ (deleteTask (mainLoop initial ins).store (some id)).store.tasks,
      t.ID = id := by
    rintro ⟨t, ht, hid⟩
    have hin : t.ID ∈ ids (deleteTask (mainLoop initial ins).store (some id)).store :=
      List.mem_map_of_mem _ ht
    rw [hid] at hin
    exact habsent hin
  exact ⟨fun t ht hid => hno ⟨t, ht, hid⟩, deleteTask_not_found _ id hno,
    completeTask_not_found _ id hno⟩

/-- Witness for C10: add one task, delete ID 1 (the store is then empty), delete ID 1 again:
not found. -/
theorem deleted_id_not_found_afterwards_witness :
    successfulAdds [addPass "milk" "2%"] ≤ 2 ^ 64
      ∧ (deleteTask (mainLoop initial [addPass "milk" "2%"]).store (some 1)).output
        = ["Enter task ID to delete: ", "Task deleted successfully!\n"]
      ∧ (deleteTask (mainLoop initial [addPass "milk" "2%"]).store (some 1)).store.tasks.length
          = 0
      ∧ deleteTask (deleteTask (mainLoop initial [addPass "milk" "2%"]).store (some 1)).store
            (some 1)
          = { store := (deleteTask (mainLoop initial [addPass "milk" "2%"]).store
                (some 1)).store,
              output := ["Enter task ID to delete: ", "Task not found!\n"] } :=
  ⟨by decide, by decide, by decide,
    (deleted_id_not_found_afterwards [addPass "milk" "2%"] 1 (by decide) (by decide)).2.1⟩

/-- Counterexample to C10 as stated, a run with `2 ^ 64 + 1` successful additions: the first
task (ID 1) is kept, then `2 ^ 64 - 1` tasks are added and deleted again at once, then one
more task is added. The counter has gone once
around, so this task has ID 1 as well. A `deleteTask` with id 1 succeeds and removes the
first of the two, a task with ID 1 remains, and the repeated `deleteTask` succeeds again
instead of reporting "Task not found!". -/
theorem deleted_id_found_again_after_full_cycle :
    successfulAdds (addPass "a" "" :: churn 2 (2 ^ 64 - 1) ++ [addPass "a" ""]) = 2 ^ 64 + 1
      ∧ (deleteTask (mainLoop initial
        (addPass "a" "" :: churn 2 (2 ^ 64 - 1) ++ [addPass "a" ""])).store (some 1)).output
        = ["Enter task ID to delete: ", "Task deleted successfully!\n"]
      ∧ (∃ t ∈ (deleteTask (mainLoop initial
            (addPass "a" "" :: churn 2 (2 ^ 64 - 1) ++ [addPass "a" ""])).store
              (some 1)).store.tasks, t.ID = 1)
      ∧ (deleteTask (deleteTask (mainLoop initial
            (addPass "a" "" :: churn 2 (2 ^ 64 - 1) ++ [addPass "a" ""])).store
              (some 1)).store (some 1)).output
          = ["Enter task ID to delete: ", "Task deleted successfully!\n"] := by
  refine ⟨?_, ?_⟩
  · rw [successfulAdds_append, successfulAdds_cons, successfulAdds_churn]
    simp [successfulAdds, addsTask, addPass]
  · rw [run_around_twice]
    refine ⟨by decide, by decide, by decide⟩

/-- Claim C11: a task created by `addTask` starts with `Completed = false`, and no pass of
the loop resets a flag. For a pass other than a deletion, a completed task stays at its
position, unchanged; after a deletion pass the store is a sublist of the store before, so
every task that is still there is unchanged. Along any run from the initial store with at
most `2 ^ 64` successful additions, once a task is completed every later task with its ID
is completed. -/
theorem completed_flag_never_reset :
    (∀ (s : Store) (title description : String), title ≠ "" →
        ((addTask s title description).store.tasks.getLast?).map Task.Completed = some false)
      ∧ (∀ (s : Store) (e : Scanned), e.choice ≠ some 4 →
          ∀ (i : Nat) (t : Task), s.tasks[i]? = some t → t.Completed = true →
            (iteration s e).store.tasks[i]? = some t)
      ∧ (∀ (s : Store) (e : Scanned), e.choice = some 4 →
          (iteration s e).store.tasks.Sublist s.tasks)
      ∧ (∀ (pre post : List Scanned) (t : Task),
          successfulAdds (pre ++ post) ≤ 2 ^ 64 →
          (mainLoop initial pre).exited = false →
          t ∈ (mainLoop initial pre).store.tasks → t.Completed = true →
          ∀ u ∈ (mainLoop initial (pre ++ post)).store.tasks, u.ID = t.ID →
            u.Completed = true) := by
  refine ⟨?_, ?_, ?_, ?_⟩
  · intro s title description h
    rw [addTask_store, if_neg h]
    simp
  · intro s e he i t hi ht
    exact iteration_keeps_completed s e he i t hi ht
  · intro s e he
    rw [iteration_delete s e he]
    exact (deleteTask_sublist s e.id).1
  · intro pre post t hb hrun hmem hdone u hu hid
    obtain ⟨m, hm, hnum, hmeq⟩ := numbered_mainLoop pre
    have hcount := successfulAdds_append pre post
    have hm64 : m ≤ 2 ^ 64 := by omega
    obtain ⟨k0, hk1, hk2, hk3⟩ := numbered_key hnum t hmem
    rw [(mainLoop_append initial pre post hrun).1] at hu
    refine mainLoop_keeps (fun x => x.Completed = true) (fun _ _ => rfl) t.ID k0 m _ post
      hk1 hk2 hk3 hnum.1 ?_ ?_ u hu hid
    · intro v hv hvid
      have heq : v = t :=
        List.inj_on_of_nodup_map (numbered_nodup hnum hm64) hv hmem hvid
      rw [heq]
      exact hdone
    · have := hmeq hrun
      omega

/-- Witness for C11: task 1 is completed, then task 2 is added and deleted and task 1 is
completed once more; task 1 is still completed at the end. -/
theorem completed_flag_never_reset_witness :
    "milk" ≠ ""
      ∧ ((addTask sampleStore "milk" "").store.tasks.getLast?).map Task.Completed = some false
      ∧ successfulAdds ([addPass "tea" "", completePass 1]
            ++ [addPass "milk" "", deletePass 2, completePass 1, listPass]) ≤ 2 ^ 64
      ∧ (mainLoop initial [addPass "tea" "", completePass 1]).exited = false
      ∧ (mainLoop initial ([addPass "tea" "", completePass 1]
            ++ [addPass "milk" "", deletePass 2, completePass 1, listPass])).store.tasks
          = [{ ID := 1, Title := "tea", Description := "", Completed := true }]
      ∧ (∀ u ∈ (mainLoop initial ([addPass "tea" "", completePass 1]
            ++ [addPass "milk" "", deletePass 2, completePass 1, listPass])).store.tasks,
          u.ID = 1 → u.Completed = true) :=
  ⟨by decide, completed_flag_never_reset.1 sampleStore "milk" "" (by decide), by decide,
    by decide, by decide,
    completed_flag_never_reset.2.2.2 [addPass "tea" "", completePass 1]
      [addPass "milk" "", deletePass 2, completePass 1, listPass]
      { ID := 1, Title := "tea", Description := "", Completed := true }
      (by decide) (by decide) (by decide) rfl⟩

/-- Claim C12: in every state reached from the initial store by any run of passes, every
stored task has a non-empty title. -/
theorem reachable_titles_nonempty (ins : List Scanned) :
    ∀ t ∈ (mainLoop initial ins).store.tasks, t.Title ≠ "" :=
  mainLoop_preserves (fun x => ∀ t ∈ x.tasks, t.Title ≠ "") titles_iteration initial ins
    (by simp [initial])

/-- Witness for C12: the task added by a run is in the store and has the non-empty title
"tea". -/
theorem reachable_titles_nonempty_witness :
    ({ ID := 1, Title := "tea", Description := "", Completed := false } : Task)
        ∈ (mainLoop initial [addPass "tea" "", addPass "" "x"]).store.tasks
      ∧ ({ ID := 1, Title := "tea", Description := "", Completed := false } : Task).Title ≠ "" :=
  ⟨by decide, reachable_titles_nonempty [addPass "tea" "", addPass "" "x"]
    { ID := 1, Title := "tea", Description := "", Completed := false } (by decide)⟩

/-- Claim C13: for every store, a pass whose menu input does not scan as a number writes
"Error: Please enter a valid number!", and a pass whose number lies outside 1..5 writes
"Invalid choice! Please try again."; in both cases the store (task sequence and
`currentID`) is unchanged and the loop does not exit. -/
theorem invalid_menu_input_no_effect (s : Store) (e : Scanned) :
    (e.choice = none →
        (iteration s e).store = s ∧ (iteration s e).exited = false
          ∧ (iteration s e).output.getLast? = some "Error: Please enter a valid number!\n")
      ∧ (∀ n : Int, e.choice = some n → (n < 1 ∨ 5 < n) →
        (iteration s e).store = s ∧ (iteration s e).exited = false
          ∧ ["Invalid choice! Please try again.\n", "\nPress Enter to continue..."]
              <:+ (iteration s e).output) := by
  constructor
  · intro h
    simp [iteration, h, println]
  · intro n h hn
    have h1 : n ≠ 1 := by omega
    have h2 : n ≠ 2 := by omega
    have h3 : n ≠ 3 := by omega
    have h4 : n ≠ 4 := by omega
    have h5 : n ≠ 5 := by omega
    simp only [iteration, h, h1, h2, h3, h4, h5, if_false, println, true_and]
    rw [List.append_assoc]
    exact List.suffix_append _ _

/-- Witness for C13: on the sample store, an unreadable choice and the choices 0 and 6 leave
the store as it is and keep the loop running. -/
theorem invalid_menu_input_no_effect_witness :
    ((iteration sampleStore { listPass with choice := none }).store = sampleStore
        ∧ (iteration sampleStore { listPass with choice := none }).exited = false
        ∧ (iteration sampleStore { listPass with choice := none }).output.getLast?
            = some "Error: Please enter a valid number!\n")
      ∧ ((iteration sampleStore { addPass "tea" "" with choice := some 6 }).store = sampleStore
        ∧ (iteration sampleStore { addPass "tea" "" with choice := some 6 }).exited = false
        ∧ ["Invalid choice! Please try again.\n", "\nPress Enter to continue..."]
            <:+ (iteration sampleStore { addPass "tea" "" with choice := some 6 }).output)
      ∧ (iteration sampleStore { deletePass 1 with choice := some 0 }).store = sampleStore :=
  ⟨(invalid_menu_input_no_effect sampleStore { listPass with choice := none }).1 rfl,
    (invalid_menu_input_no_effect sampleStore { addPass "tea" "" with choice := some 6 }).2 6
      rfl (by decide),
    ((invalid_menu_input_no_effect sampleStore { deletePass 1 with choice := some 0 }).2 0
      rfl (by decide)).1⟩

/-- Claim C14: for every store, when `fmt.Scanln(&id)` fails at the prompt of `completeTask`
or of `deleteTask`, the function writes "Error: Please enter a valid number!" and returns
the store unchanged (same task sequence, same `currentID`). -/
theorem unparsable_id_aborts (s : Store) :
    completeTask s none
        = { store := s,
            output := ["Enter task ID to complete: ", "Error: Please enter a valid number!\n"] }
      ∧ deleteTask s none
        = { store := s,
            output := ["Enter task ID to delete: ", "Error: Please enter a valid number!\n"] }
      ∧ (completeTask s none).store.tasks = s.tasks
      ∧ (completeTask s none).store.currentID = s.currentID
      ∧ (deleteTask s none).store.tasks = s.tasks
      ∧ (deleteTask s none).store.currentID = s.currentID := by
  simp [completeTask, deleteTask, println]

/-- Claim C15: for every store, `listTasks` returns the store it was given: the task
sequence and `currentID` after the call are those before it. -/
theorem listTasks_no_side_effect (s : Store) :
    (listTasks s).store = s ∧ (listTasks s).store.tasks = s.tasks
      ∧ (listTasks s).store.currentID = s.currentID := by
  rw [listTasks_store]
  exact ⟨rfl, rfl, rfl⟩

/-- Claim C16 (does not hold on the code): `fmt.Scanln(&title)` stores one word, not the
line. On the input lines "Buy milk" and "2%" the stored task has Title "Buy" and
Description "ilk": the title stops at the space, the `m` is read by the end-of-line check of
the first call, the second call reads the rest of the first line, and the line "2%" is left
unread. -/
theorem addTask_cuts_title_at_space :
    (addTaskOnInput initial "Buy milk\n2%\n".toList).1.store.tasks
        = [{ ID := 1, Title := "Buy", Description := "ilk", Completed := false }]
      ∧ (addTaskOnInput initial "Buy milk\n2%\n".toList).2 = "2%\n".toList
      ∧ (addTaskOnInput initial "Buy milk\n2%\n".toList).1.store.tasks
        ≠ [{ ID := 1, Title := "Buy milk", Description := "2%", Completed := false }] := by
  decide

/-- Claim C17: a pass of the loop exits exactly when the menu choice scans as the number 5,
and a run of passes has exited exactly when one of its passes had choice 5. A pass with
choice 5 ends the loop: it leaves the store as it is and the passes after it are never
run. A pass with any other outcome of the choice scan is followed by the next pass, run on
the store it leaves. -/
theorem exit_only_on_choice_five :
    (∀ (s : Store) (e : Scanned), (iteration s e).exited = true ↔ e.choice = some 5)
      ∧ (∀ (s : Store) (ins : List Scanned),
          (mainLoop s ins).exited = true ↔ ∃ e ∈ ins, e.choice = some 5)
      ∧ (∀ (s : Store) (e : Scanned) (post : List Scanned), e.choice = some 5 →
          mainLoop s (e :: post) = iteration s e ∧ (iteration s e).store = s)
      ∧ (∀ (s : Store) (pre : List Scanned) (e : Scanned) (post : List Scanned),
          e.choice = some 5 → mainLoop s (pre ++ e :: post) = mainLoop s (pre ++ [e]))
      ∧ (∀ (s : Store) (e : Scanned) (post : List Scanned), e.choice ≠ some 5 →
          mainLoop s (e :: post)
            = { store := (mainLoop (iteration s e).store post).store,
                output := (iteration s e).output ++ (mainLoop (iteration s e).store post).output,
                exited := (mainLoop (iteration s e).store post).exited }) := by
  refine ⟨iteration_exited_iff, mainLoop_exited_iff, ?_, ?_, mainLoop_cons⟩
  · intro s e post he
    refine ⟨mainLoop_cons_exit s e post he, ?_⟩
    simp [iteration, he]
  · intro s pre e post he
    induction pre generalizing s with
    | nil =>
      simp only [List.nil_append]
      rw [mainLoop_cons_exit s e post he, mainLoop_cons_exit s e [] he]
    | cons x pre ih =>
      by_cases hx : x.choice = some 5
      · simp only [List.cons_append]
        rw [mainLoop_cons_exit s x _ hx, mainLoop_cons_exit s x _ hx]
      · simp only [List.cons_append]
        rw [mainLoop_cons s x _ hx, mainLoop_cons s x _ hx, ih]

/-- Witness for C17: on the sample store a pass with choice 5 followed by an addition exits
at once, with the store unchanged and nothing added; an addition followed by the exit pass
and another addition stores one task only; an addition pass (choice 1, not 5) is followed by
the listing pass after it, run on the store with the new task. -/
theorem exit_only_on_choice_five_witness :
    ({ listPass with choice := some 5 } : Scanned).choice = some 5
      ∧ (mainLoop sampleStore [{ listPass with choice := some 5 }, addPass "jam" ""]
            = iteration sampleStore { listPass with choice := some 5 }
          ∧ (iteration sampleStore { listPass with choice := some 5 }).store = sampleStore)
      ∧ (mainLoop sampleStore [{ listPass with choice := some 5 }, addPass "jam" ""]).store
          = sampleStore
      ∧ mainLoop initial ([addPass "tea" ""]
            ++ { listPass with choice := some 5 } :: [addPass "jam" ""])
          = mainLoop initial ([addPass "tea" ""] ++ [{ listPass with choice := some 5 }])
      ∧ (mainLoop initial ([addPass "tea" ""]
            ++ { listPass with choice := some 5 } :: [addPass "jam" ""])).store.tasks
          = [{ ID := 1, Title := "tea", Description := "", Completed := false }]
      ∧ (addPass "jam" "").choice ≠ some 5
      ∧ mainLoop initial (addPass "jam" "" :: [listPass])
          = { store := (mainLoop (iteration initial (addPass "jam" "")).store [listPass]).store,
              output := (iteration initial (addPass "jam" "")).output
                ++ (mainLoop (iteration initial (addPass "jam" "")).store [listPass]).output,
              exited := (mainLoop (iteration initial (addPass "jam" "")).store
                [listPass]).exited }
      ∧ (mainLoop initial (addPass "jam" "" :: [listPass])).exited = false :=
  ⟨rfl,
    exit_only_on_choice_five.2.2.1 sampleStore { listPass with choice := some 5 }
      [addPass "jam" ""] rfl,
    by decide,
    exit_only_on_choice_five.2.2.2.1 initial [addPass "tea" ""]
      { listPass with choice := some 5 } [addPass "jam" ""] rfl,
    by decide,
    by decide,
    exit_only_on_choice_five.2.2.2.2 initial (addPass "jam" "") [listPass] (by decide),
    by decide⟩

/-- Claim C21: for every store, `listTasks` writes "No tasks found!" and nothing else when the
store is empty; otherwise, after the two heading lines, it writes one entry per task, in
store order, and the entry of a task shows its ID, Title and Description and the status
"Completed" when the flag is true, "Pending" when it is false. -/
theorem listTasks_output :
    (∀ s : Store, s.tasks = [] → (listTasks s).output = ["No tasks found!\n"])
      ∧ (∀ s : Store, s.tasks ≠ [] →
          (listTasks s).output
              = ["\nCurrent Tasks:\n", "-------------\n"] ++ s.tasks.map taskEntry
            ∧ (listTasks s).output.length = s.tasks.length + 2
            ∧ ∀ (i : Nat) (t : Task), s.tasks[i]? = some t →
                (listTasks s).output[i + 2]? = some (taskEntry t))
      ∧ (∀ t : Task, taskEntry t
          = "ID: " ++ toString t.ID ++ "\nTitle: " ++ t.Title ++ "\nDescription: "
              ++ t.Description ++ "\nStatus: "
              ++ (if t.Completed = true then "Completed" else "Pending") ++ "\n\n") := by
  refine ⟨?_, ?_, fun t => rfl⟩
  · intro s h
    simp [listTasks, h, println]
  · intro s h
    have hlen : ¬ s.tasks.length = 0 := fun h0 => h (List.length_eq_zero.1 h0)
    have hout : (listTasks s).output
        = ["\nCurrent Tasks:\n", "-------------\n"] ++ s.tasks.map taskEntry := by
      simp [listTasks, hlen, println]
    refine ⟨hout, ?_, ?_⟩
    · rw [hout]; simp
    · intro i t hi
      rw [hout]
      simp [hi]

/-- Witness for C21: the listing of the empty store and of the sample store. -/
theorem listTasks_output_witness :
    initial.tasks = [] ∧ (listTasks initial).output = ["No tasks found!\n"]
      ∧ sampleStore.tasks ≠ []
      ∧ (listTasks sampleStore).output
          = ["\nCurrent Tasks:\n", "-------------\n",
             "ID: 1\nTitle: tea\nDescription: green\nStatus: Completed\n\n",
             "ID: 3\nTitle: milk\nDescription: 2%\nStatus: Pending\n\n"] :=
  ⟨rfl, listTasks_output.1 initial rfl, by decide,
    ((listTasks_output.2.1 sampleStore (by decide)).1).trans (by decide)⟩

/-- Claim C25, bounded form: in every state reached from the initial store by a run with at most
`2 ^ 63 - 1` successful additions, the task IDs strictly increase along the store and each
of them is at least 1; with at most `2 ^ 63 - 2` successful additions each of them is also
below `currentID`. -/
theorem reachable_ids_increasing_bounded (ins : List Scanned) :
    (successfulAdds ins ≤ 2 ^ 63 - 1 →
        ((mainLoop initial ins).store.tasks.map Task.ID).Pairwise (fun a b => a < b)
          ∧ ∀ t ∈ (mainLoop initial ins).store.tasks, 1 ≤ t.ID)
      ∧ (successfulAdds ins ≤ 2 ^ 63 - 2 →
        ∀ t ∈ (mainLoop initial ins).store.tasks,
          t.ID < (mainLoop initial ins).store.currentID) := by
  obtain ⟨m, hm, hnum, _⟩ := numbered_mainLoop ins
  constructor
  · intro hb
    have h := numbered_increasing_positive hnum (by omega)
    exact ⟨h.1, fun t ht => (h.2 t.ID (List.mem_map_of_mem _ ht)).1⟩
  · intro hb
    have h := numbered_increasing_positive hnum (by omega)
    have hc := numbered_below_counter hnum (by omega)
    intro t ht
    have := (h.2 t.ID (List.mem_map_of_mem _ ht)).2
    omega

/-- Witness for C25: after three additions and the deletion of ID 2 the store holds IDs 1
and 3, increasing and at least 1, and `currentID` is 4, above both. -/
theorem reachable_ids_increasing_bounded_witness :
    successfulAdds [addPass "tea" "", addPass "milk" "", addPass "jam" "", deletePass 2]
        ≤ 2 ^ 63 - 1
      ∧ successfulAdds [addPass "tea" "", addPass "milk" "", addPass "jam" "", deletePass 2]
        ≤ 2 ^ 63 - 2
      ∧ (mainLoop initial [addPass "tea" "", addPass "milk" "", addPass "jam" "",
        deletePass 2]).store.tasks.map Task.ID = [1, 3]
      ∧ (mainLoop initial [addPass "tea" "", addPass "milk" "", addPass "jam" "",
        deletePass 2]).store.currentID = 4
      ∧ ((mainLoop initial [addPass "tea" "", addPass "milk" "", addPass "jam" "",
          deletePass 2]).store.tasks.map Task.ID).Pairwise (fun a b => a < b)
      ∧ ({ ID := 3, Title := "jam", Description := "", Completed := false } : Task)
          ∈ (mainLoop initial [addPass "tea" "", addPass "milk" "", addPass "jam" "",
              deletePass 2]).store.tasks
      ∧ ({ ID := 3, Title := "jam", Description := "", Completed := false } : Task).ID
          < (mainLoop initial [addPass "tea" "", addPass "milk" "", addPass "jam" "",
              deletePass 2]).store.currentID :=
  ⟨by decide, by decide, by decide, by decide,
    ((reachable_ids_increasing_bounded
      [addPass "tea" "", addPass "milk" "", addPass "jam" "", deletePass 2]).1
        (by decide)).1,
    by decide,
    (reachable_ids_increasing_bounded
      [addPass "tea" "", addPass "milk" "", addPass "jam" "", deletePass 2]).2 (by decide)
      { ID := 3, Title := "jam", Description := "", Completed := false } (by decide)⟩

/-- Counterexample to C25 as stated: after `2 ^ 63 - 1` successful additions (all but the
last task deleted again at once) the store holds the task with ID `2 ^ 63 - 1` while
`currentID` has wrapped to `-2 ^ 63`: the ID is not below `currentID`. After one more
addition of this kind the stored task has ID `-2 ^ 63`, which is not at least 1. -/
theorem task_id_not_below_counter_after_wrap :
    successfulAdds (churn 1 (2 ^ 63 - 2) ++ [addPass "a" ""]) = 2 ^ 63 - 1
      ∧ (mainLoop initial (churn 1 (2 ^ 63 - 2) ++ [addPass "a" ""])).store.currentID
          = -2 ^ 63
      ∧ (¬ ∀ t ∈ (mainLoop initial (churn 1 (2 ^ 63 - 2) ++ [addPass "a" ""])).store.tasks,
          t.ID < (mainLoop initial (churn 1 (2 ^ 63 - 2) ++ [addPass "a" ""])).store.currentID)
      ∧ successfulAdds (churn 1 (2 ^ 63 - 1) ++ [addPass "a" ""]) = 2 ^ 63
      ∧ ¬ ∀ t ∈ (mainLoop initial (churn 1 (2 ^ 63 - 1) ++ [addPass "a" ""])).store.tasks,
          1 ≤ t.ID := by
  refine ⟨?_, by rw [run_past_top], ?_, ?_, ?_⟩
  · rw [successfulAdds_append, successfulAdds_churn]
    simp [successfulAdds, addsTask, addPass]
  · rw [run_past_top]
    intro h
    have := h _ (List.mem_singleton.2 rfl)
    simp at this
  · rw [successfulAdds_append, successfulAdds_churn]
    simp [successfulAdds, addsTask, addPass]
  · rw [run_past_wrap]
    intro h
    have := h _ (List.mem_singleton.2 rfl)
    simp at this

/-- Claim C26: for every store and all ids `a` and `b` with `a ≠ b`, `completeTask` with `a`
and `deleteTask` with `b` give the same store in either order, and so do two `deleteTask`
calls and two `completeTask` calls with `a` and `b`. -/
theorem operations_on_distinct_ids_commute (s : Store) (a b : Int) (hab : a ≠ b) :
    (deleteTask (completeTask s (some a)).store (some b)).store
        = (completeTask (deleteTask s (some b)).store (some a)).store
      ∧ (deleteTask (deleteTask s (some a)).store (some b)).store
        = (deleteTask (deleteTask s (some b)).store (some a)).store
      ∧ (completeTask (completeTask s (some a)).store (some b)).store
        = (completeTask (completeTask s (some b)).store (some a)).store := by
  simp only [deleteTask_eq_dropFirst, completeTask_eq_markFirst]
  rw [markFirst_dropFirst_comm hab, dropFirst_comm hab, markFirst_comm hab]
  exact ⟨rfl, rfl, rfl⟩

/-- Witness for C26: on the sample store with ids 1 and 3, and on the store with two tasks
of ID 2 with ids 2 and 5. -/
theorem operations_on_distinct_ids_commute_witness :
    (3 : Int) ≠ 1
      ∧ (deleteTask (completeTask sampleStore (some 3)).store (some 1)).store
          = { tasks := [{ ID := 3, Title := "milk", Description := "2%", Completed := true }],
              currentID := 4 }
      ∧ (deleteTask (completeTask sampleStore (some 3)).store (some 1)).store
          = (completeTask (deleteTask sampleStore (some 1)).store (some 3)).store
      ∧ (deleteTask (deleteTask twinStore (some 2)).store (some 5)).store
          = (deleteTask (deleteTask twinStore (some 5)).store (some 2)).store :=
  ⟨by decide, by decide,
    (operations_on_distinct_ids_commute sampleStore 3 1 (by decide)).1,
    (operations_on_distinct_ids_commute twinStore 2 5 (by decide)).2.1⟩

end Todo

namespace Calc

/-! ## Auxiliary lemmas -/

theorem perform_lastResult {F : Type} [Add F] [Sub F] (c : Calculator F) (k : Call F) :
    (perform c k).2.lastResult = (perform c k).1 := by
  cases k <;> rfl

theorem afterCalls_append {F : Type} [Add F] [Sub F] (c : Calculator F)
    (calls : List (Call F)) (k : Call F) :
    afterCalls c (calls ++ [k]) = (perform (afterCalls c calls) k).2 := by
  induction calls generalizing c with
  | nil => rfl
  | cons j rest ih => exact ih (perform c j).2

/-! ## Claims -/

/-- Claim C18: for every calculator and all numbers `a` and `b`, `Add` returns `a + b` and
stores it; the result is the same whatever the calculator held before. With exact rational
numbers as carrier, the four cases of `TestAdd`, run in order on one calculator, return
5, -5, 0 and -1. -/
theorem add_returns_sum :
    (∀ (F : Type) [Add F] (c other : Calculator F) (a b : F),
        (c.Add a b).1 = a + b ∧ (c.Add a b).2.lastResult = a + b
          ∧ (other.Add a b).1 = (c.Add a b).1)
      ∧ returned (Calculator.fresh : Calculator ℚ)
          [Call.add 2 3, Call.add (-2) (-3), Call.add 0 0, Call.add 2 (-3)]
          = [5, -5, 0, -1] := by
  constructor
  · intro F _ c other a b
    exact ⟨rfl, rfl, rfl⟩
  · norm_num [returned, perform, Calculator.Add, Calculator.fresh]

/-- Claim C19: for every calculator and all numbers `a` and `b`, `Subtract` returns `a - b`
and stores it; the result is the same whatever the calculator held before. With exact
rational numbers as carrier, the four cases of `TestSubtract`, run in order on one
calculator, return 2, 1, 0 and 5. -/
theorem subtract_returns_difference :
    (∀ (F : Type) [Sub F] (c other : Calculator F) (a b : F),
        (c.Subtract a b).1 = a - b ∧ (c.Subtract a b).2.lastResult = a - b
          ∧ (other.Subtract a b).1 = (c.Subtract a b).1)
      ∧ returned (Calculator.fresh : Calculator ℚ)
          [Call.subtract 5 3, Call.subtract (-2) (-3), Call.subtract 0 0,
           Call.subtract 2 (-3)]
          = [2, 1, 0, 5] := by
  constructor
  · intro F _ c other a b
    exact ⟨rfl, rfl, rfl⟩
  · norm_num [returned, perform, Calculator.Subtract, Calculator.fresh]

/-- Claim C20: after any sequence of `Add` and `Subtract` calls, `GetLastResult` returns the
number returned by the last of them; on a calculator that has performed no call it returns
the zero value; and `GetLastResult` leaves the calculator as it was. With exact rational
numbers as carrier: after `Add(2, 3)` it returns 5, after a following `Subtract(10, 4)`
it returns 6. -/
theorem getLastResult_returns_latest :
    (∀ (F : Type) [Add F] [Sub F] (c : Calculator F) (calls : List (Call F)) (k : Call F),
        (afterCalls c (calls ++ [k])).GetLastResult.1 = (perform (afterCalls c calls) k).1)
      ∧ (∀ (F : Type) [Zero F], (Calculator.fresh : Calculator F).GetLastResult.1 = 0)
      ∧ (∀ (F : Type) (c : Calculator F), c.GetLastResult.2 = c)
      ∧ (afterCalls (Calculator.fresh : Calculator ℚ) [Call.add 2 3]).GetLastResult.1 = 5
      ∧ (afterCalls (Calculator.fresh : Calculator ℚ)
          [Call.add 2 3, Call.subtract 10 4]).GetLastResult.1 = 6 := by
  refine ⟨?_, ?_, ?_, ?_, ?_⟩
  · intro F _ _ c calls k
    rw [afterCalls_append]
    exact perform_lastResult _ k
  · intro F _
    rfl
  · intro F c
    rfl
  · norm_num [afterCalls, perform, Calculator.Add, Calculator.GetLastResult, Calculator.fresh]
  · norm_num [afterCalls, perform, Calculator.Add, Calculator.Subtract,
      Calculator.GetLastResult, Calculator.fresh]

end Calc

namespace Functions

/-! ## Auxiliary lemmas -/

theorem wrapInt_add_left (x y : Int) : wrapInt (wrapInt x + y) = wrapInt (x + y) := by
  unfold wrapInt; omega

theorem wrapInt_add (x y : Int) : wrapInt (wrapInt x + wrapInt y) = wrapInt (x + y) := by
  unfold wrapInt; omega

theorem wrapInt_of_range (z : Int) (hlo : -2 ^ 63 ≤ z) (hhi : z < 2 ^ 63) : wrapInt z = z := by
  unfold wrapInt; omega

theorem foldl_wrapInt (acc : Int) (numbers : List Int) :
    numbers.foldl (fun total num => wrapInt (total + num)) (wrapInt acc)
      = wrapInt (acc + numbers.sum) := by
  induction numbers generalizing acc with
  | nil => simp
  | cons x rest ih =>
    simp only [List.foldl_cons, List.sum_cons]
    rw [wrapInt_add_left, ih (acc + x), add_assoc]

theorem sum_eq_wrapInt (numbers : List Int) : sum numbers = wrapInt numbers.sum := by
  have h := foldl_wrapInt 0 numbers
  have h0 : wrapInt 0 = 0 := by unfold wrapInt; omega
  rw [h0, zero_add] at h
  exact h

/-! ## Claims -/

/-- Claim C27: `sum` returns the total of its arguments in the wrap-around arithmetic of
`int`: `sum()` is 0; `sum` of `xs` followed by `ys` is the wrapped sum of `sum(xs)` and
`sum(ys)`; `sum(xs)` is the wrapped mathematical total, and is that total itself when it
lies in the range of `int`; and `sum(1, 2, 3, 4, 5) = 15`. -/
theorem sum_wraparound_total :
    sum [] = 0
      ∧ (∀ xs ys : List Int, sum (xs ++ ys) = wrapInt (sum xs + sum ys))
      ∧ (∀ xs : List Int, sum xs = wrapInt xs.sum)
      ∧ (∀ xs : List Int, -2 ^ 63 ≤ xs.sum → xs.sum < 2 ^ 63 → sum xs = xs.sum)
      ∧ sum [1, 2, 3, 4, 5] = 15 := by
  refine ⟨rfl, ?_, sum_eq_wrapInt, ?_, ?_⟩
  · intro xs ys
    rw [sum_eq_wrapInt, sum_eq_wrapInt xs, sum_eq_wrapInt ys, wrapInt_add, List.sum_append]
  · intro xs hlo hhi
    rw [sum_eq_wrapInt, wrapInt_of_range _ hlo hhi]
  · norm_num [sum, wrapInt]

/-- Witness for C27: the total of 1..5 is in range and is returned as it is; at the top of the
range the total wraps: `sum(2 ^ 63 - 1, 1)` is `-2 ^ 63`. -/
theorem sum_wraparound_total_witness :
    (-2 ^ 63 ≤ ([1, 2, 3, 4, 5] : List Int).sum ∧ ([1, 2, 3, 4, 5] : List Int).sum < 2 ^ 63)
      ∧ sum [1, 2, 3, 4, 5] = ([1, 2, 3, 4, 5] : List Int).sum
      ∧ sum ([2 ^ 63 - 1] ++ [1]) = wrapInt (sum [2 ^ 63 - 1] + sum [1])
      ∧ sum [2 ^ 63 - 1, 1] = -2 ^ 63 :=
  ⟨by norm_num,
    sum_wraparound_total.2.2.2.1 [1, 2, 3, 4, 5] (by norm_num) (by norm_num),
    sum_wraparound_total.2.1 [2 ^ 63 - 1] [1],
    by norm_num [sum, wrapInt]⟩

end Functions

namespace ErrorHandling

/-- Claim C22: for all `a` and `b`, both `divide` functions return the result 0 and an error
with message "division by zero" when `b == 0` holds, and the quotient `a / b` with a nil
error when it does not; so an error is returned exactly when `b` equals 0. -/
theorem divide_error_iff_zero {F : Type} [BEq F] [Zero F] [Div F] (a b : F) :
    ((b == 0) = true →
        divide a b = (0, some (Failure.text "division by zero"))
          ∧ (Failure.text "division by zero").Error = "division by zero"
          ∧ Functions.divide a b = (0, some "division by zero"))
      ∧ ((b == 0) = false →
        divide a b = (a / b, none) ∧ Functions.divide a b = (a / b, none))
      ∧ (divide a b).2.isSome = (b == 0)
      ∧ (Functions.divide a b).2.isSome = (b == 0) := by
  cases h : b == 0 <;> simp [divide, Functions.divide, h, Failure.Error]

/-- Witness for C22: with exact rational numbers as carrier, `divide(10, 0)` is the error and
`divide(10, 2)` is 5 with a nil error, for both functions. -/
theorem divide_error_iff_zero_witness :
    (((0 : ℚ) == 0) = true ∧ ((2 : ℚ) == 0) = false)
      ∧ (divide (10 : ℚ) 0 = (0, some (Failure.text "division by zero"))
          ∧ (Failure.text "division by zero").Error = "division by zero"
          ∧ Functions.divide (10 : ℚ) 0 = (0, some "division by zero"))
      ∧ (divide (10 : ℚ) 2 = (10 / 2, none) ∧ Functions.divide (10 : ℚ) 2 = (10 / 2, none))
      ∧ (10 : ℚ) / 2 = 5 :=
  ⟨⟨by simp, by simp⟩, (divide_error_iff_zero (10 : ℚ) 0).1 (by simp),
    (divide_error_iff_zero (10 : ℚ) 2).2.1 (by simp), by norm_num⟩

/-- Claim C23: for every name and age, `validateUser` returns nil exactly when the name is
not empty and the age is not negative; with an empty name it returns the `ValidationError`
with Field "name", whatever the age; with a non-empty name and a negative age it returns the
one with Field "age"; and the message of a `ValidationError` is
"Validation error in <Field>: <Issue>". -/
theorem validateUser_cases (name : String) (age : Int) :
    (validateUser name age = none ↔ (name ≠ "" ∧ 0 ≤ age))
      ∧ (name = "" → validateUser name age
          = some (Failure.validation { Field := "name", Issue := "name cannot be empty" }))
      ∧ (name ≠ "" → age < 0 → validateUser name age
          = some (Failure.validation { Field := "age", Issue := "age cannot be negative" }))
      ∧ (∀ e : ValidationError,
          (Failure.validation e).Error = "Validation error in " ++ e.Field ++ ": " ++ e.Issue) := by
  refine ⟨?_, ?_, ?_, fun e => rfl⟩
  · by_cases hn : name = ""
    · simp [validateUser, hn]
    · by_cases ha : age < 0
      · simp [validateUser, hn, ha]
      · simp [validateUser, hn, ha]
        omega
  · intro hn
    simp [validateUser, hn]
  · intro hn ha
    simp [validateUser, hn, ha]

/-- Witness for C23: the calls `validateUser("", -1)` and `validateUser("John", -1)` of
`main`, with the messages of the errors they return. -/
theorem validateUser_cases_witness :
    ("" : String) = "" ∧ "John" ≠ "" ∧ (-1 : Int) < 0
      ∧ validateUser "" (-1)
          = some (Failure.validation { Field := "name", Issue := "name cannot be empty" })
      ∧ validateUser "John" (-1)
          = some (Failure.validation { Field := "age", Issue := "age cannot be negative" })
      ∧ (Failure.validation { Field := "name", Issue := "name cannot be empty" }).Error
          = "Validation error in name: name cannot be empty"
      ∧ (Failure.validation { Field := "age", Issue := "age cannot be negative" }).Error
          = "Validation error in age: age cannot be negative"
      ∧ validateUser "John" 30 = none :=
  ⟨rfl, by decide, by decide, (validateUser_cases "" (-1)).2.1 rfl,
    (validateUser_cases "John" (-1)).2.2.1 (by decide) (by decide), by decide, by decide,
    by decide⟩

/-- Claim C24: for every name and age, `processUser` returns nil exactly when `validateUser`
does; otherwise it returns an error that unwraps to the error of `validateUser` and whose
message is "failed to process user: " followed by the message of that error. -/
theorem processUser_wraps_validation (name : String) (age : Int) :
    (processUser name age = none ↔ validateUser name age = none)
      ∧ (∀ err : Failure, validateUser name age = some err →
          ∃ w : Failure, processUser name age = some w ∧ w.Unwrap = some err
            ∧ w.Error = "failed to process user: " ++ err.Error
            ∧ ∃ e : ValidationError, err = Failure.validation e) := by
  constructor
  · cases h : validateUser name age <;> simp [processUser, h]
  · intro err h
    refine ⟨errorfWrap "failed to process user: " err, by simp [processUser, h], rfl, rfl, ?_⟩
    unfold validateUser at h
    split_ifs at h
    · exact ⟨_, (Option.some.inj h).symm⟩
    · exact ⟨_, (Option.some.inj h).symm⟩

/-- Witness for C24: the call `processUser("", -1)` of `main`. -/
theorem processUser_wraps_validation_witness :
    validateUser "" (-1)
        = some (Failure.validation { Field := "name", Issue := "name cannot be empty" })
      ∧ processUser "" (-1)
        = some (Failure.wrapped
            "failed to process user: Validation error in name: name cannot be empty"
            (Failure.validation { Field := "name", Issue := "name cannot be empty" }))
      ∧ (∃ w : Failure, processUser "" (-1) = some w
          ∧ w.Unwrap
              = some (Failure.validation { Field := "name", Issue := "name cannot be empty" })
          ∧ w.Error = "failed to process user: "
              ++ (Failure.validation
                    { Field := "name", Issue := "name cannot be empty" }).Error
          ∧ ∃ e : ValidationError,
              Failure.validation { Field := "name", Issue := "name cannot be empty" }
                = Failure.validation e) :=
  ⟨by decide, by decide,
    (processUser_wraps_validation "" (-1)).2
      (Failure.validation { Field := "name", Issue := "name cannot be empty" }) (by decide)⟩

end ErrorHandling
